import Mathlib

/-!
Verification of the listing-generation pipeline (recipe validation engine,
extraction sandbox, synthesis loop, recipe refinement, batch executor).

Each definition in this file is a shallow embedding of the Python function
of the same (or clearly indicated) name from the repository sources
(`recipe.py`, `discovery.py`, `executor.py`).  Machine-level details that
cannot affect the stated properties (logging, wall-clock timestamps, the
exact bytes of large prompt literals) are elided with a note at the
definition site.
-/

namespace ListingAgent

/-! ### Validation engine (`recipe.py`)

`VResult` models the `{passed, score, issues}` dict returned by the
structural validation layer; `JudgeCriterion` models one entry of the list
built by `_judge_single_criterion`; `JudgeResult` models the dict returned
by `llm_judge_listing`.  Python ints are modelled as `Int`, counts as `Nat`.
-/

structure VResult where
  passed : Bool
  score : Int
  issues : List String
deriving Repr, DecidableEq

structure JudgeCriterion where
  criterion : String
  label : String
  pass : Bool
  reasoning : String
deriving Repr, DecidableEq

structure JudgeResult where
  criteria : List JudgeCriterion
  passed_count : Nat
  total_count : Nat
  all_passed : Bool
  failed_reasons : List String
deriving Repr, DecidableEq

/-- `llm_judge_listing` (recipe.py): aggregates the per-criterion results.
The per-criterion LLM calls themselves are external; this takes the list of
their results (each already defaulted to `pass := true` on judge error by
`_judge_single_criterion`). -/
def llm_judge_listing (results : List JudgeCriterion) : JudgeResult :=
  let passed_count := (results.filter (fun r => r.pass)).length
  { criteria := results
    passed_count := passed_count
    total_count := results.length
    all_passed := passed_count == results.length
    failed_reasons :=
      (results.filter (fun r => !r.pass)).map
        (fun r => r.criterion ++ ": " ++ r.reasoning.take 150) }

structure CombinedValidation where
  passed : Bool
  score : Int
  issues : List String
  code_issues : List String
  judge_criteria : List JudgeCriterion
  judge_passed : Nat
  judge_total : Nat
deriving Repr, DecidableEq

/-- `combine_validation` (recipe.py): merge code-based structural checks
with LLM judge results.  Scoring: `100 - 15*code issues - 12*failed judge
criteria`, floored at 0 (`sum(12 for c in judge_criteria if not c["pass"])`
equals `12 * number of failed criteria`). -/
def combine_validation (code_validation : VResult) (judge_result : JudgeResult) :
    CombinedValidation :=
  let code_issues := code_validation.issues
  let judge_criteria := judge_result.criteria
  let score : Int :=
    max 0 (100 - (code_issues.length : Int) * 15
             - 12 * ((judge_criteria.filter (fun c => !c.pass)).length : Int))
  { passed := code_issues.isEmpty && judge_result.all_passed
    score := score
    issues := code_issues ++
      (judge_criteria.filter (fun c => !c.pass)).map
        (fun c => "[" ++ c.criterion ++ "] " ++ c.reasoning.take 120)
    code_issues := code_issues
    judge_criteria := judge_criteria
    judge_passed := judge_result.passed_count
    judge_total := judge_result.total_count }

/-- The composite-score formula as the spec states it:
`100 − 15×(structural issue count) − 12×(failed semantic criteria count)`,
floored at 0.  Used to compare `combine_validation` against the spec. -/
def compositeScore (codeIssues failedJudge : Nat) : Int :=
  max 0 (100 - 15 * (codeIssues : Int) - 12 * (failedJudge : Int))

/-! ### Python AST and the static safety checks (`discovery.py`, `recipe.py`)

The repository runs LLM-generated Python through `ast.parse` and walks the
tree rejecting dangerous patterns.  We embed the fragment of the Python AST
the generated scripts use.  `ast.walk` visits nodes breadth-first; our
checks visit the same node set depth-first, which can only change *which*
violation message is reported when several violations are present, never
*whether* the program is rejected. -/

mutual
inductive PyExpr where
  | name (id : String)
  | strLit (s : String)
  | numLit (n : Int)
  | attribute (value : PyExpr) (attr : String)
  | call (func : PyExpr) (args : PyExprList)
  | binOp (left right : PyExpr)
  | subscript (value index : PyExpr)
deriving DecidableEq, Repr
inductive PyExprList where
  | nil
  | cons (head : PyExpr) (tail : PyExprList)
deriving DecidableEq, Repr
end

mutual
inductive PyStmt where
  | imp (names : List String)
  | importFrom (module : Option String) (names : List String)
  | assign (target : String) (value : PyExpr)
  | exprStmt (value : PyExpr)
  | forStmt (target : String) (iter : PyExpr) (body : PyStmtList)
  | ifStmt (cond : PyExpr) (thenBody elseBody : PyStmtList)
  | funcDef (fname : String) (body : PyStmtList)
  | ret (value : PyExpr)
deriving DecidableEq, Repr
inductive PyStmtList where
  | nil
  | cons (head : PyStmt) (tail : PyStmtList)
deriving DecidableEq, Repr
end

/-- A parsed module: `ast.parse` either succeeds with a statement list or
raises `SyntaxError`. -/
inductive PyModule where
  | syntaxError (msg : String)
  | parsed (body : PyStmtList)
deriving DecidableEq, Repr

/-- `_ALLOWED_IMPORTS` (discovery.py): modules the extraction script may
import. -/
def _ALLOWED_IMPORTS : List String := ["pandas", "pd", "io", "json", "re", "math"]

/-- The call deny list shared by both safety checkers:
`("exec", "eval", "compile", "__import__", "open")`. -/
def denyCalls : List String := ["exec", "eval", "compile", "__import__", "open"]

/-- The `isinstance(node, ast.Call) and isinstance(node.func, ast.Name)`
guard with the deny-list membership test, extraction-sandbox message. -/
def extractionDenyCallCheck : PyExpr → Option String
  | .name fid =>
      if fid ∈ denyCalls then some ("Blocked: call to '" ++ fid ++ "'")
      else none
  | _ => none

/-- Same guard, validation-sandbox message (recipe.py). -/
def validationDenyCallCheck : PyExpr → Option String
  | .name fid =>
      if fid ∈ denyCalls then
        some ("Blocked: call to '" ++ fid ++ "' is not allowed")
      else none
  | _ => none

/-- Boolean form of the deny-call guard. -/
def isDenyCall : PyExpr → Bool
  | .name fid => denyCalls.contains fid
  | _ => false

/-! `_check_extraction_code_safety` (discovery.py): blocks dunder attribute
access, imports outside `_ALLOWED_IMPORTS`, and deny-listed calls. -/

mutual
def extractionExprCheck : PyExpr → Option String
  | .name _ => none
  | .strLit _ => none
  | .numLit _ => none
  | .attribute value attr =>
      if attr.startsWith "__" then
        some ("Blocked: access to dunder attribute '" ++ attr ++ "'")
      else extractionExprCheck value
  | .call func args =>
      (extractionDenyCallCheck func).orElse
        (fun _ => (extractionExprCheck func).orElse
          (fun _ => extractionExprListCheck args))
  | .binOp l r => (extractionExprCheck l).orElse (fun _ => extractionExprCheck r)
  | .subscript v i => (extractionExprCheck v).orElse (fun _ => extractionExprCheck i)
def extractionExprListCheck : PyExprList → Option String
  | .nil => none
  | .cons h t => (extractionExprCheck h).orElse (fun _ => extractionExprListCheck t)
end

mutual
def extractionStmtCheck : PyStmt → Option String
  | .imp names =>
      names.findSome? (fun n =>
        if n ∈ _ALLOWED_IMPORTS then none
        else some ("Blocked: import of '" ++ n ++ "'"))
  | .importFrom module _ =>
      match module with
      | none => none
      | some m =>
          if (m.splitOn ".").headD m ∈ _ALLOWED_IMPORTS then none
          else some ("Blocked: import from '" ++ m ++ "'")
  | .assign _ v => extractionExprCheck v
  | .exprStmt v => extractionExprCheck v
  | .forStmt _ iter body =>
      (extractionExprCheck iter).orElse (fun _ => extractionStmtListCheck body)
  | .ifStmt c t e =>
      (extractionExprCheck c).orElse
        (fun _ => (extractionStmtListCheck t).orElse
          (fun _ => extractionStmtListCheck e))
  | .funcDef _ body => extractionStmtListCheck body
  | .ret v => extractionExprCheck v
def extractionStmtListCheck : PyStmtList → Option String
  | .nil => none
  | .cons h t => (extractionStmtCheck h).orElse (fun _ => extractionStmtListCheck t)
end

def _check_extraction_code_safety : PyModule → Option String
  | .syntaxError msg => some ("Syntax error: " ++ msg)
  | .parsed body => extractionStmtListCheck body

/-! Boolean mirror of "the program contains a node of one of the rejected
classes" (the classes claim C3 enumerates: import outside the allow-list,
dunder-style attribute reference, deny-listed call). -/

mutual
def exprHasBad : PyExpr → Bool
  | .name _ => false
  | .strLit _ => false
  | .numLit _ => false
  | .attribute value attr => attr.startsWith "__" || exprHasBad value
  | .call func args => isDenyCall func || exprHasBad func || exprListHasBad args
  | .binOp l r => exprHasBad l || exprHasBad r
  | .subscript v i => exprHasBad v || exprHasBad i
def exprListHasBad : PyExprList → Bool
  | .nil => false
  | .cons h t => exprHasBad h || exprListHasBad t
end

mutual
def stmtHasBad : PyStmt → Bool
  | .imp names => names.any (fun n => !(_ALLOWED_IMPORTS.contains n))
  | .importFrom module _ =>
      match module with
      | none => false
      | some m => !(_ALLOWED_IMPORTS.contains ((m.splitOn ".").headD m))
  | .assign _ v => exprHasBad v
  | .exprStmt v => exprHasBad v
  | .forStmt _ iter body => exprHasBad iter || stmtListHasBad body
  | .ifStmt c t e => exprHasBad c || stmtListHasBad t || stmtListHasBad e
  | .funcDef _ body => stmtListHasBad body
  | .ret v => exprHasBad v
def stmtListHasBad : PyStmtList → Bool
  | .nil => false
  | .cons h t => stmtHasBad h || stmtListHasBad t
end

/-! `_check_code_safety` (recipe.py): like the extraction check but blocks
*all* import statements (the validation sandbox allows none). -/

mutual
def validationExprCheck : PyExpr → Option String
  | .name _ => none
  | .strLit _ => none
  | .numLit _ => none
  | .attribute value attr =>
      if attr.startsWith "__" then
        some ("Blocked: access to '" ++ attr ++ "' is not allowed")
      else validationExprCheck value
  | .call func args =>
      (validationDenyCallCheck func).orElse
        (fun _ => (validationExprCheck func).orElse
          (fun _ => validationExprListCheck args))
  | .binOp l r => (validationExprCheck l).orElse (fun _ => validationExprCheck r)
  | .subscript v i => (validationExprCheck v).orElse (fun _ => validationExprCheck i)
def validationExprListCheck : PyExprList → Option String
  | .nil => none
  | .cons h t => (validationExprCheck h).orElse (fun _ => validationExprListCheck t)
end

mutual
def validationStmtCheck : PyStmt → Option String
  | .imp _ => some "Blocked: import statements are not allowed"
  | .importFrom _ _ => some "Blocked: import statements are not allowed"
  | .assign _ v => validationExprCheck v
  | .exprStmt v => validationExprCheck v
  | .forStmt _ iter body =>
      (validationExprCheck iter).orElse (fun _ => validationStmtListCheck body)
  | .ifStmt c t e =>
      (validationExprCheck c).orElse
        (fun _ => (validationStmtListCheck t).orElse
          (fun _ => validationStmtListCheck e))
  | .funcDef _ body => validationStmtListCheck body
  | .ret v => validationExprCheck v
def validationStmtListCheck : PyStmtList → Option String
  | .nil => none
  | .cons h t => (validationStmtCheck h).orElse (fun _ => validationStmtListCheck t)
end

def _check_code_safety : PyModule → Option String
  | .syntaxError msg => some ("Syntax error: " ++ msg)
  | .parsed body => validationStmtListCheck body

/-! ### Sandbox executor (`discovery.py`, `_execute_extraction_script`) -/

/-- One extracted product: field name → value.  Python values that are not
strings are represented by their string rendering; `none` models Python
`None`. -/
structure Product where
  fields : List (String × Option String)
deriving DecidableEq, Repr

structure ExecEnv where
  full_data : String
  image_filenames : List String
  expected_rows : Nat
deriving Repr

/-- What the script left in `result_json` after `exec` completed. -/
inductive RawResult where
  | unassigned
  | notJson (msg : String)
  | json (products : List Product)
deriving Repr

/-- The outcome of running Python `exec` on the script: raising an
exception, or completing with some `result_json`.  The actual Python
interpreter is external; executions are universally quantified over this
oracle, so every theorem below holds for arbitrary script behaviour. -/
inductive RunOutcome where
  | raises (msg : String)
  | completes (raw : RawResult)
deriving Repr

/-- Count of non-empty fields, excluding `id`/`source`
(`v is not None and v != "" and v != "None" and k not in ("id","source")`). -/
def nonNullFieldCount (p : Product) : Nat :=
  (p.fields.filter (fun kv =>
    kv.2 ≠ none && kv.2 ≠ some "" && kv.2 ≠ some "None" &&
    kv.1 ≠ "id" && kv.1 ≠ "source")).length

/-- `_execute_extraction_script` (discovery.py).  The float threshold
`len(products) < expected_rows * 0.8` is modelled by the exact rational
comparison `10*len < 8*expected`; `null_heavy > len(products) * 0.5` is
exactly `2*null_heavy > len` (0.5 is exact in binary floating point). -/
def _execute_extraction_script (script : PyModule) (env : ExecEnv)
    (pyExec : PyModule → ExecEnv → RunOutcome) : List Product × List String :=
  match _check_extraction_code_safety script with
  | some err => ([], ["Script safety check failed: " ++ err])
  | none =>
    match pyExec script env with
    | .raises msg => ([], ["Script execution error: " ++ msg])
    | .completes .unassigned => ([], ["Script did not assign a value to result_json"])
    | .completes (.notJson msg) => ([], ["result_json is not valid JSON: " ++ msg])
    | .completes (.json products) =>
      let countErrors : List String :=
        if products.length = 0 then ["Script produced 0 products"]
        else if products.length * 10 < env.expected_rows * 8 then
          ["Row count mismatch: got " ++ toString products.length ++
            " products but data source has " ++ toString env.expected_rows ++ " rows"]
        else []
      let null_heavy := (products.filter (fun p => nonNullFieldCount p ≤ 1)).length
      let emptyErrors : List String :=
        if products.length ≠ 0 ∧ null_heavy * 2 > products.length then
          [toString null_heavy ++ "/" ++ toString products.length ++
            " products have almost no data"]
        else []
      (products, countErrors ++ emptyErrors)

/-! ### Script synthesis loop (`discovery.py`, `_run_and_validate_script`) -/

def MAX_EXTRACTION_RETRIES : Nat := 3

/-- The `for attempt in range(MAX_EXTRACTION_RETRIES)` loop of
`_run_and_validate_script`.  `ex` abstracts one `_execute_extraction_script`
call on the current script; `fix` abstracts `_fix_extraction_script` (the
LLM repair call, which may fail to produce a script).  Returns the final
`(products, errors)` pair held by the loop variables together with the
number of execution rounds performed.  `errors = []` corresponds to the
early `return products`. -/
def extractionLoop (ex : PyModule → List Product × List String)
    (fix : PyModule → List String → Option PyModule) :
    PyModule → Nat → (List Product × List String) × Nat
  | _, 0 => (([], []), 0)
  | script, fuel + 1 =>
    let pe := ex script
    if pe.2 = [] then (pe, 1)
    else if fuel = 0 then (pe, 1)
    else
      match fix script pe.2 with
      | some fixed =>
        let r := extractionLoop ex fix fixed fuel
        (r.1, r.2 + 1)
      | none => (pe, 1)

/-- `_run_and_validate_script` (discovery.py): run the loop; return the
final product list if the early return fired or the last attempt produced
at least one product; otherwise raise `ValueError`. -/
def _run_and_validate_script (ex : PyModule → List Product × List String)
    (fix : PyModule → List String → Option PyModule) (script : PyModule) :
    Except String (List Product) :=
  let r := extractionLoop ex fix script MAX_EXTRACTION_RETRIES
  if r.1.2 = [] then .ok r.1.1
  else if r.1.1 ≠ [] then .ok r.1.1
  else .error ("Extraction failed after " ++ toString MAX_EXTRACTION_RETRIES ++ " attempts")

/-! ### Python string helpers

Faithful on the ASCII strings the validation rules use.  `pyLower` models
`str.lower` (ASCII range), `pyIsSpace` the whitespace set of `str.split()`
and `str.strip()`, `pyWords` Python's `s.split()` (runs of whitespace,
empties discarded), `strContains` Python's `needle in hay`. -/

def pyLowerChar (c : Char) : Char :=
  if 'A' ≤ c ∧ c ≤ 'Z' then Char.ofNat (c.toNat + 32) else c

def pyLower (s : String) : String := ⟨s.data.map pyLowerChar⟩

def pyIsSpace (c : Char) : Bool :=
  c = ' ' || c = '\t' || c = '\n' || c = '\r' || c = Char.ofNat 11 || c = Char.ofNat 12

def pyWordsAux : List Char → List Char → List String
  | [], acc => if acc.isEmpty then [] else [⟨acc.reverse⟩]
  | c :: t, acc =>
    if pyIsSpace c then
      if acc.isEmpty then pyWordsAux t [] else ⟨acc.reverse⟩ :: pyWordsAux t []
    else pyWordsAux t (c :: acc)

/-- `s.split()`: the maximal whitespace-free runs of `s`. -/
def pyWords (s : String) : List String := pyWordsAux s.data []

def listContainsInfix (needle : List Char) : List Char → Bool
  | [] => needle.isEmpty
  | c :: t => needle.isPrefixOf (c :: t) || listContainsInfix needle t

/-- Python `needle in hay` for strings. -/
def strContains (hay needle : String) : Bool := listContainsInfix needle.data hay.data

/-! ### Structural validation layer (`recipe.py`) -/

/-- The listing dict fields `_basic_validation` reads.
`suggested_price = none` models a missing or non-numeric
`suggested_price` (both fail the `isinstance/(> 0)` test exactly when a
numeric value `≤ 0` does); Python numeric prices are modelled as `Int`. -/
structure ListingV where
  title : String
  description : String
  tags : List String
  suggested_price : Option Int
deriving Repr, DecidableEq

structure StyleProfile where
  always_mention : List String
deriving Repr, DecidableEq

/-- `_basic_validation` (recipe.py): the fixed built-in rule set. -/
def _basic_validation (listing : ListingV) (style_profile : StyleProfile) : VResult :=
  let titleIssues :=
    (if listing.title.length > 140 then ["Title exceeds 140 characters"] else []) ++
    (if listing.title.length < 5 then ["Title is too short"] else [])
  let word_count := (pyWords listing.description).length
  let descIssues :=
    (if word_count < 30 then
      ["Description too short (" ++ toString word_count ++ " words)"] else []) ++
    (if word_count > 500 then
      ["Description too long (" ++ toString word_count ++ " words)"] else [])
  let tagIssues :=
    if listing.tags.length < 3 then
      ["Too few tags (" ++ toString listing.tags.length ++ ")"] else []
  let priceIssues :=
    match listing.suggested_price with
    | none => ["Invalid or missing price"]
    | some p => if p ≤ 0 then ["Invalid or missing price"] else []
  let desc_lower := pyLower listing.description
  let mentionIssues := style_profile.always_mention.filterMap (fun m =>
    if strContains desc_lower (pyLower m) then none
    else some ("Missing mandatory mention: '" ++ m ++ "'"))
  let issues := titleIssues ++ descIssues ++ tagIssues ++ priceIssues ++ mentionIssues
  { passed := issues.isEmpty
    score := max 0 (100 - (issues.length : Int) * 15)
    issues := issues }

/-- What `exec(validation_code)` followed by the `validate_listing` lookup
and call produces.  External interpreter behaviour, universally
quantified. -/
inductive ValCodeBehavior where
  | noFunction
  | raises (msg : String)
  | nonDict
  | returns (passed : Bool) (score : Int) (issues : List String)
deriving Repr, DecidableEq

/-- A validation program as `run_validation` sees it: the blank test
(`not validation_code or not validation_code.strip()`), the parse result,
and the execution behaviour. -/
structure ValidationCode where
  isBlank : Bool
  ast : PyModule
  behavior : ListingV → StyleProfile → ValCodeBehavior

/-- `run_validation` (recipe.py): run the user validation program under the
static safety discipline, falling back to `_basic_validation` when the
program is blank, rejected, defines no `validate_listing`, or returns a
non-dict; a program that *raises* yields a fixed failure result instead
(the `except` branch at recipe.py:923-929). -/
def run_validation (listing : ListingV) (style_profile : StyleProfile)
    (vc : ValidationCode) : VResult :=
  if vc.isBlank then _basic_validation listing style_profile
  else
    match _check_code_safety vc.ast with
    | some _ => _basic_validation listing style_profile
    | none =>
      match vc.behavior listing style_profile with
      | .raises msg =>
          { passed := false, score := 0, issues := ["Validation code error: " ++ msg] }
      | .noFunction => _basic_validation listing style_profile
      | .nonDict => _basic_validation listing style_profile
      | .returns p s i => { passed := p, score := s, issues := i }

/-- A listing that passes every built-in rule (30-word description, valid
title, three tags, positive price); used as the concrete counterexample
input for C6. -/
def cexListing : ListingV :=
  { title := "Hand Carved Wooden Bowl"
    description := "A handsome hand carved wooden bowl made from reclaimed oak " ++
      "with a smooth food safe finish ideal for serving salads fruit or bread " ++
      "and a warm rustic centerpiece for any kitchen table setting"
    tags := ["wood", "bowl", "kitchen"]
    suggested_price := some 25 }

def cexStyle : StyleProfile := { always_mention := [] }

/-- A validation program that passes the safety check but raises at
runtime. -/
def cexThrowingCode : ValidationCode :=
  { isBlank := false
    ast := .parsed .nil
    behavior := fun _ _ => .raises "boom" }

/-! ### Recipe refinement (`recipe.py`, `refine_recipe`) -/

/-- Output schemas are JSON objects whose internal structure the claims
never inspect; we carry them as their serialized form. -/
abbrev Schema := String

/-- `DEFAULT_OUTPUT_SCHEMA` (recipe.py:36): a fixed JSON literal; its
contents are irrelevant to the claims and are elided. -/
def DEFAULT_OUTPUT_SCHEMA : Schema := "<the default output schema literal>"

/-- `DEFAULT_VALIDATION_CODE` (recipe.py:63): a fixed Python source
literal; its contents are irrelevant to the claims and are elided. -/
def DEFAULT_VALIDATION_CODE : String := "<the default validation code literal>"

/-- A recipe dict.  `output_schema`/`validation_code` are `Option`s because
`refine_recipe` reads them with `recipe.get(key, DEFAULT)`; `test_results`
entries are carried opaquely. -/
structure Recipe where
  version : Int
  prompt_template : String
  output_schema : Option Schema
  validation_code : Option String
  test_results : List String
  approved : Bool
  changes_made : String
deriving Repr, DecidableEq

/-- The parsed LLM refinement response (`_parse_recipe_response` output):
any subset of the keys may be present; `refine_recipe` reads each with
`updated_data.get(key, fallback)`. -/
structure RefineResponse where
  prompt_template : Option String
  output_schema : Option Schema
  validation_code : Option String
  changes_made : Option String
deriving Repr, DecidableEq

/-- `refine_recipe` (recipe.py:584-694).  The LLM call and the prompt text
are external (the parsed response arrives as `updated_data`); the
`save_recipe` disk write and logging are elided.  Builds the updated
recipe, preserving fields the LLM did not return. -/
def refine_recipe (recipe : Recipe) (updated_data : RefineResponse) : Recipe :=
  { version := recipe.version + 1
    prompt_template := updated_data.prompt_template.getD recipe.prompt_template
    output_schema :=
      some (updated_data.output_schema.getD
        (recipe.output_schema.getD DEFAULT_OUTPUT_SCHEMA))
    validation_code :=
      some (updated_data.validation_code.getD
        (recipe.validation_code.getD DEFAULT_VALIDATION_CODE))
    test_results := recipe.test_results
    approved := false
    changes_made := updated_data.changes_made.getD "" }

/-! ### Column fingerprint (`discovery.py`, `_column_fingerprint`)

`hashlib.sha256(normalized.encode()).hexdigest()[:16]` is embedded by a
full executable SHA-256 over the UTF-8 bytes of the normalized string.
32-bit machine words are `Nat` reduced mod `2^32` (`w32`). -/

def w32 (n : Nat) : Nat := n % 4294967296

def rotr32 (n x : Nat) : Nat := w32 ((x >>> n) ||| (x <<< (32 - n)))

def sha256Ch (e f g : Nat) : Nat := (e &&& f) ^^^ ((e ^^^ 4294967295) &&& g)

def sha256Maj (a b c : Nat) : Nat := (a &&& b) ^^^ (a &&& c) ^^^ (b &&& c)

def bsig0 (a : Nat) : Nat := rotr32 2 a ^^^ rotr32 13 a ^^^ rotr32 22 a

def bsig1 (e : Nat) : Nat := rotr32 6 e ^^^ rotr32 11 e ^^^ rotr32 25 e

def ssig0 (x : Nat) : Nat := rotr32 7 x ^^^ rotr32 18 x ^^^ (x >>> 3)

def ssig1 (x : Nat) : Nat := rotr32 17 x ^^^ rotr32 19 x ^^^ (x >>> 10)

def sha256K : List Nat :=
  [1116352408, 1899447441, 3049323471, 3921009573, 961987163,
   1508970993, 2453635748, 2870763221, 3624381080, 310598401,
   607225278, 1426881987, 1925078388, 2162078206, 2614888103,
   3248222580, 3835390401, 4022224774, 264347078, 604807628,
   770255983, 1249150122, 1555081692, 1996064986, 2554220882,
   2821834349, 2952996808, 3210313671, 3336571891, 3584528711,
   113926993, 338241895, 666307205, 773529912, 1294757372,
   1396182291, 1695183700, 1986661051, 2177026350, 2456956037,
   2730485921, 2820302411, 3259730800, 3345764771, 3516065817,
   3600352804, 4094571909, 275423344, 430227734, 506948616,
   659060556, 883997877, 958139571, 1322822218, 1537002063,
   1747873779, 1955562222, 2024104815, 2227730452, 2361852424,
   2428436474, 2756734187, 3204031479, 3329325298]

structure Sha256State where
  a : Nat
  b : Nat
  c : Nat
  d : Nat
  e : Nat
  f : Nat
  g : Nat
  h : Nat
deriving Repr, DecidableEq

def sha256Init : Sha256State :=
  ⟨1779033703, 3144134277, 1013904242, 2773480762,
   1359893119, 2600822924, 528734635, 1541459225⟩

def beBytes8 (n : Nat) : List Nat :=
  [(n >>> 56) % 256, (n >>> 48) % 256, (n >>> 40) % 256, (n >>> 32) % 256,
   (n >>> 24) % 256, (n >>> 16) % 256, (n >>> 8) % 256, n % 256]

def sha256pad (msg : List Nat) : List Nat :=
  let l := msg.length
  let zeros := (120 - ((l + 1) % 64)) % 64
  msg ++ [128] ++ List.replicate zeros 0 ++ beBytes8 (8 * l)

def toWords : List Nat → List Nat
  | b0 :: b1 :: b2 :: b3 :: rest =>
      (((b0 * 256 + b1) * 256 + b2) * 256 + b3) :: toWords rest
  | _ => []

def chunks16 : List Nat → List (List Nat)
  | w0 :: w1 :: w2 :: w3 :: w4 :: w5 :: w6 :: w7 ::
    w8 :: w9 :: w10 :: w11 :: w12 :: w13 :: w14 :: w15 :: rest =>
      [w0, w1, w2, w3, w4, w5, w6, w7, w8, w9, w10, w11, w12, w13, w14, w15] ::
        chunks16 rest
  | _ => []

/-- Message-schedule extension on the reversed word list (so `W[i-2]` is at
index 1, `W[i-7]` at 6, `W[i-15]` at 14, `W[i-16]` at 15). -/
def extendW : Nat → List Nat → List Nat
  | 0, revW => revW
  | k + 1, revW =>
      let next := w32 (ssig1 (revW.getD 1 0) + revW.getD 6 0 +
        ssig0 (revW.getD 14 0) + revW.getD 15 0)
      extendW k (next :: revW)

def roundStep (s : Sha256State) (kw : Nat × Nat) : Sha256State :=
  let t1 := w32 (s.h + bsig1 s.e + sha256Ch s.e s.f s.g + kw.1 + kw.2)
  let t2 := w32 (bsig0 s.a + sha256Maj s.a s.b s.c)
  ⟨w32 (t1 + t2), s.a, s.b, s.c, w32 (s.d + t1), s.e, s.f, s.g⟩

def processBlock (hs : Sha256State) (block : List Nat) : Sha256State :=
  let ws := (extendW 48 block.reverse).reverse
  let s := (sha256K.zip ws).foldl roundStep hs
  ⟨w32 (hs.a + s.a), w32 (hs.b + s.b), w32 (hs.c + s.c), w32 (hs.d + s.d),
   w32 (hs.e + s.e), w32 (hs.f + s.f), w32 (hs.g + s.g), w32 (hs.h + s.h)⟩

def hexDigit (n : Nat) : Char :=
  if n < 10 then Char.ofNat (48 + n) else Char.ofNat (87 + n)

def word32Hex (n : Nat) : List Char :=
  [hexDigit ((n >>> 28) % 16), hexDigit ((n >>> 24) % 16),
   hexDigit ((n >>> 20) % 16), hexDigit ((n >>> 16) % 16),
   hexDigit ((n >>> 12) % 16), hexDigit ((n >>> 8) % 16),
   hexDigit ((n >>> 4) % 16), hexDigit (n % 16)]

/-- `hashlib.sha256(bytes).hexdigest()`. -/
def sha256hex (msg : List Nat) : String :=
  let final := (chunks16 (toWords (sha256pad msg))).foldl processBlock sha256Init
  ⟨([final.a, final.b, final.c, final.d,
     final.e, final.f, final.g, final.h].map word32Hex).flatten⟩

def utf8EncodeChar (n : Nat) : List Nat :=
  if n < 128 then [n]
  else if n < 2048 then [192 + n / 64, 128 + n % 64]
  else if n < 65536 then [224 + n / 4096, 128 + (n / 64) % 64, 128 + n % 64]
  else [240 + n / 262144, 128 + (n / 4096) % 64, 128 + (n / 64) % 64, 128 + n % 64]

/-- `str.encode()` (UTF-8). -/
def utf8Bytes (s : String) : List Nat :=
  (s.data.map (fun c => utf8EncodeChar c.toNat)).flatten

/-- `str.strip()` on the ASCII whitespace set. -/
def pyStrip (s : String) : String :=
  ⟨((s.data.dropWhile pyIsSpace).reverse.dropWhile pyIsSpace).reverse⟩

/-- Python string `<=`: lexicographic on code points. -/
def strLeList : List Char → List Char → Bool
  | [], _ => true
  | _ :: _, [] => false
  | a :: as, b :: bs =>
      if a.toNat < b.toNat then true
      else if b.toNat < a.toNat then false
      else strLeList as bs

def pyStrLe (a b : String) : Bool := strLeList a.data b.data

/-- Python `sorted` on strings: ascending stable sort by the code-point
order (insertion sort is stable, and any correct sort agrees on lists
whose equal elements are identical strings). -/
def pySorted (l : List String) : List String :=
  List.insertionSort (fun a b => pyStrLe a b = true) l

/-- `_column_fingerprint` (discovery.py):
`"|".join(h.strip().lower() for h in sorted(headers))`, hashed and
truncated to 16 hex characters. -/
def _column_fingerprint (headers : List String) : String :=
  let normalized :=
    String.intercalate "|" ((pySorted headers).map (fun h => pyLower (pyStrip h)))
  ⟨(sha256hex (utf8Bytes normalized)).data.take 16⟩

/-- The normalized field-name set of a header list, as claim C9 reads it
(each name trimmed of surrounding whitespace and lowercased, as a set). -/
def normalizedNameSet (headers : List String) : Finset String :=
  (headers.map (fun h => pyLower (pyStrip h))).toFinset

/-! ### Batch execution engine (`executor.py`, `execute_batch` / `_process_one`)

`execute_batch` fans `_process_one` out over all products with
`asyncio.gather` under a `Semaphore(5)`.  asyncio is cooperative: a task
runs atomically between `await` points.  We model the batch as a labelled
transition system whose atomic steps are exactly the code segments between
the `await`s of `_process_one`:

* first quota-flag check (executor.py:354) and, in the same segment, the
  semaphore acquire when a slot is free (`Semaphore.acquire` does not
  yield when capacity is available) together with the second flag check
  (line 358);
* the `_process_product` call, abstracted as one in-flight phase whose
  outcome comes from an oracle (`ProcOutcome`) — its internal AI awaits
  and the mid-flight `retrying` broadcast are compressed into the step
  that completes it, which preserves every ordering the claims mention
  because no shared state changes inside it;
* the quota-exception handler (sets the shared flag, broadcasts the error
  message, resolves the item as failed);
* the post-semaphore segment: synchronous `_save_listing` disk write and
  `completed_count` increment, then the awaited progress broadcast.

A scheduler choice is a nondeterministic pick of which task steps next, a
superset of the interleavings the asyncio event loop can produce. -/

/-- The per-product metadata `_process_one` reads before any await. -/
structure ItemMeta where
  product_id : String
  sku : Option String
  image_filename : Option String
deriving Repr, DecidableEq

/-- Result dict of `_process_product` / `_failed_result`. -/
structure ItemResult where
  product_id : String
  sku : Option String
  listing : Option ListingV
  validation : VResult
  image_filename : Option String
  retried : Bool
  failed : Bool
  error : Option String
deriving Repr, DecidableEq

/-- `_failed_result` (executor.py:281-297). -/
def _failed_result (product_id : String) (sku : Option String)
    (image_filename : Option String) (error : String) : ItemResult :=
  { product_id := product_id
    sku := sku
    listing := none
    validation := { passed := false, score := 0, issues := [error] }
    image_filename := image_filename
    retried := false
    failed := true
    error := some error }

/-- The result `_process_one` builds when the quota flag is observed set
or `QuotaExhaustedError` is caught. -/
def quotaFailedResult (m : ItemMeta) : ItemResult :=
  _failed_result m.product_id m.sku m.image_filename "API quota exhausted"

/-- Outcome of one `_process_product` call: a result dict (possibly itself
a failed one, e.g. after generic generation errors, which are caught
inside), or a raised `QuotaExhaustedError`.  The generative service is
external; claims are quantified over this oracle. -/
inductive ProcOutcome where
  | ok (r : ItemResult)
  | quota
deriving Repr, DecidableEq

/-- `_process_product` consumes the recipe only through
`recipe["prompt_template"]` (via `fill_template`, executor.py:134) and the
batch-level `recipe.get("output_schema", DEFAULT_OUTPUT_SCHEMA)`
(executor.py:321); `gen` abstracts everything downstream of those two
inputs (per item index). -/
def itemOutcome (gen : String → Schema → Nat → ProcOutcome) (recipe : Recipe)
    (idx : Nat) : ProcOutcome :=
  gen recipe.prompt_template (recipe.output_schema.getD DEFAULT_OUTPUT_SCHEMA) idx

/-- The WebSocket/disk events a batch run produces, in order.  The
`retrying` broadcast (executor.py:199-211) is the dict with
`status="retrying"` and `completed=None`; `progress` is the resolution
event sent by `_send_progress` with the incremented completed count. -/
inductive BatchEvent where
  | batchStart (total : Nat)
  | retrying (idx : Nat)
  | quotaErrorMsg
  | save (idx : Nat) (r : ItemResult)
  | progress (idx : Nat) (completed : Nat) (score : Int) (status : String)
deriving Repr, DecidableEq

/-- Where a task is between awaits. `notifying r c` holds the result and
the completed-count value read in the same segment as the disk write. -/
inductive TaskPhase where
  | start
  | waitingSem
  | running
  | notifying (r : ItemResult) (completedAt : Nat)
  | done (r : ItemResult)
deriving Repr, DecidableEq

def CONCURRENCY : Nat := 5

structure BatchState where
  tasks : Nat → TaskPhase
  started : Nat → Bool
  quota_exhausted : Bool
  sem : Nat
  completed : Nat
  trace : List BatchEvent

/-- State after `batch_start` is broadcast and the gather is launched. -/
def batchInit (n : Nat) : BatchState :=
  { tasks := fun _ => .start
    started := fun _ => false
    quota_exhausted := false
    sem := CONCURRENCY
    completed := 0
    trace := [.batchStart n] }

/-- One atomic scheduler step of the batch (see the section comment for
the correspondence with `_process_one`'s await structure).  `started i`
is a history variable recording that the generation oracle was consulted
for item `i`. -/
inductive BatchStep (outcome : Nat → ProcOutcome) (meta : Nat → ItemMeta) (n : Nat) :
    BatchState → BatchState → Prop where
  | startQuota (s : BatchState) (i : Nat) (hi : i < n)
      (hph : s.tasks i = .start) (hq : s.quota_exhausted = true) :
      BatchStep outcome meta n s
        { s with tasks := Function.update s.tasks i (.done (quotaFailedResult (meta i))) }
  | startWait (s : BatchState) (i : Nat) (hi : i < n)
      (hph : s.tasks i = .start) (hq : s.quota_exhausted = false) (hsem : s.sem = 0) :
      BatchStep outcome meta n s
        { s with tasks := Function.update s.tasks i .waitingSem }
  | startRun (s : BatchState) (i : Nat) (hi : i < n)
      (hph : s.tasks i = .start) (hq : s.quota_exhausted = false) (hsem : 0 < s.sem) :
      BatchStep outcome meta n s
        { s with tasks := Function.update s.tasks i .running
                 started := Function.update s.started i true
                 sem := s.sem - 1 }
  | wakeQuota (s : BatchState) (i : Nat) (hi : i < n)
      (hph : s.tasks i = .waitingSem) (hq : s.quota_exhausted = true) (hsem : 0 < s.sem) :
      BatchStep outcome meta n s
        { s with tasks := Function.update s.tasks i (.done (quotaFailedResult (meta i))) }
  | wakeRun (s : BatchState) (i : Nat) (hi : i < n)
      (hph : s.tasks i = .waitingSem) (hq : s.quota_exhausted = false) (hsem : 0 < s.sem) :
      BatchStep outcome meta n s
        { s with tasks := Function.update s.tasks i .running
                 started := Function.update s.started i true
                 sem := s.sem - 1 }
  | finishOk (s : BatchState) (i : Nat) (r : ItemResult) (hi : i < n)
      (hph : s.tasks i = .running) (hout : outcome i = .ok r) :
      BatchStep outcome meta n s
        { s with tasks := Function.update s.tasks i (.notifying r (s.completed + 1))
                 sem := s.sem + 1
                 completed := s.completed + 1
                 trace := s.trace ++ (if r.retried then [.retrying i] else []) ++
                   [.save i r] }
  | finishQuota (s : BatchState) (i : Nat) (hi : i < n)
      (hph : s.tasks i = .running) (hout : outcome i = .quota) :
      BatchStep outcome meta n s
        { s with tasks := Function.update s.tasks i (.done (quotaFailedResult (meta i)))
                 sem := s.sem + 1
                 quota_exhausted := true
                 trace := s.trace ++ [.quotaErrorMsg] }
  | notify (s : BatchState) (i : Nat) (r : ItemResult) (c : Nat) (hi : i < n)
      (hph : s.tasks i = .notifying r c) :
      BatchStep outcome meta n s
        { s with tasks := Function.update s.tasks i (.done r)
                 trace := s.trace ++
                   [.progress i c r.validation.score (if r.failed then "failed" else "ok")] }

/-- Reachability from the launched batch. -/
def BatchReach (outcome : Nat → ProcOutcome) (meta : Nat → ItemMeta) (n : Nat)
    (s : BatchState) : Prop :=
  Relation.ReflTransGen (BatchStep outcome meta n) (batchInit n) s

def allDone (n : Nat) (s : BatchState) : Prop :=
  ∀ i, i < n → ∃ r, s.tasks i = .done r

def phaseRank : TaskPhase → Nat
  | .start => 4
  | .waitingSem => 3
  | .running => 2
  | .notifying _ _ => 1
  | .done _ => 0

/-- Termination measure: total remaining work. -/
def batchMeasure (n : Nat) (s : BatchState) : Nat :=
  ∑ j ∈ Finset.range n, phaseRank (s.tasks j)

/-- Number of tasks currently holding the semaphore. -/
def runningCount (n : Nat) (s : BatchState) : Nat :=
  ∑ j ∈ Finset.range n, (if s.tasks j = .running then 1 else 0)

def isProgressFor (i : Nat) : BatchEvent → Bool
  | .progress j _ _ _ => i == j
  | _ => false

def isSaveFor (i : Nat) : BatchEvent → Bool
  | .save j _ => i == j
  | _ => false

/-- "Every `progress` event for item `i` is preceded by a `save` event for
item `i`": scanned left-to-right with `b` recording whether a save has
been seen. -/
def wbnAux (i : Nat) : Bool → List BatchEvent → Prop
  | _, [] => True
  | b, e :: rest =>
      (isProgressFor i e = true → b = true) ∧ wbnAux i (b || isSaveFor i e) rest

/-- The results list `asyncio.gather` returns once every task resolved. -/
def doneList (n : Nat) (s : BatchState) : List ItemResult :=
  (List.range n).filterMap (fun i =>
    match s.tasks i with
    | .done r => some r
    | _ => none)

structure BatchReport where
  total : Nat
  succeeded : Nat
  failed : Nat
  retried : Nat
  avg_score : ℚ
deriving Repr, DecidableEq

/-- `generate_batch_report` (executor.py:648-695), minus disk/logging and
the float `round(..., 1)` on the average (modelled as the exact rational
mean; the claims never inspect its digits). -/
def generate_batch_report (results : List ItemResult) : BatchReport :=
  let total := results.length
  let succeeded := (results.filter (fun r => !r.failed)).length
  let failed := total - succeeded
  let retried := (results.filter (fun r => r.retried)).length
  let scores := (results.filter (fun r => r.listing ≠ none)).map
    (fun r => r.validation.score)
  { total := total
    succeeded := succeeded
    failed := failed
    retried := retried
    avg_score := if scores.length = 0 then 0 else (scores.sum : ℚ) / (scores.length : ℚ) }

/-- `recipe` with the `approved` flag replaced (for C10). -/
def setApproved (r : Recipe) (a : Bool) : Recipe := { r with approved := a }

/-- The inductive invariant of the batch system.  `started` is the history
variable: `started i = true` exactly when the generation oracle has been
consulted for item `i`. -/
structure BatchInv (outcome : Nat → ProcOutcome) (meta : Nat → ItemMeta) (n : Nat)
    (s : BatchState) : Prop where
  sem_bound : s.sem + runningCount n s = CONCURRENCY
  not_started : ∀ i, i < n → s.started i = false →
    s.tasks i = .start ∨ s.tasks i = .waitingSem ∨
      s.tasks i = .done (quotaFailedResult (meta i))
  started_phase : ∀ i, i < n → s.started i = true →
    s.tasks i = .running ∨ (∃ r c, s.tasks i = .notifying r c) ∨
      (∃ r, s.tasks i = .done r)
  started_run : ∀ i, i < n →
    (s.tasks i = .running ∨ (∃ r c, s.tasks i = .notifying r c)) →
    s.started i = true
  started_ok : ∀ i r, i < n → s.started i = true → outcome i = .ok r →
    s.tasks i = .running ∨ (∃ c, s.tasks i = .notifying r c) ∨ s.tasks i = .done r
  started_quota : ∀ i, i < n → s.started i = true → outcome i = .quota →
    s.tasks i = .running ∨
      (s.tasks i = .done (quotaFailedResult (meta i)) ∧ s.quota_exhausted = true)
  notifying_saved : ∀ i r c, i < n → s.tasks i = .notifying r c →
    BatchEvent.save i r ∈ s.trace
  wbn : ∀ i, wbnAux i false s.trace

/-! ### Theorems -/

/-- Helper: `Option.orElse` yields `none` iff both alternatives do. -/
theorem orElse_eq_none {α : Type _} (a : Option α) (f : Unit → Option α) :
    a.orElse f = none ↔ a = none ∧ f () = none := by
  cases a <;> simp [Option.orElse]

/-- If the deny-call guard reports nothing, the function position is not a
deny-listed name. -/
theorem extractionDenyCallCheck_none_of (f : PyExpr) :
    extractionDenyCallCheck f = none → isDenyCall f = false := by
  cases f
  case name fid =>
    intro h
    rw [extractionDenyCallCheck] at h
    by_cases hd : fid ∈ denyCalls
    · rw [if_pos hd] at h
      exact absurd h (by simp)
    · rw [isDenyCall]
      cases hc : denyCalls.contains fid
      · rfl
      · exact absurd (List.mem_of_elem_eq_true hc) hd
  all_goals exact fun _ => rfl

mutual
theorem extractionExprCheck_none_of :
    ∀ e : PyExpr, extractionExprCheck e = none → exprHasBad e = false
  | .name _ => fun _ => rfl
  | .strLit _ => fun _ => rfl
  | .numLit _ => fun _ => rfl
  | .attribute v a => fun h => by
      rw [extractionExprCheck] at h
      by_cases ha : a.startsWith "__" = true
      · rw [if_pos ha] at h
        exact absurd h (by simp)
      · rw [if_neg ha] at h
        have hb : a.startsWith "__" = false := by
          cases hsw : a.startsWith "__"
          · rfl
          · exact absurd hsw ha
        simp [exprHasBad, hb, extractionExprCheck_none_of v h]
  | .call f args => fun h => by
      rw [extractionExprCheck, orElse_eq_none] at h
      obtain ⟨h₁, h₂⟩ := h
      rw [orElse_eq_none] at h₂
      obtain ⟨h₂, h₃⟩ := h₂
      rw [exprHasBad, extractionDenyCallCheck_none_of f h₁,
        extractionExprCheck_none_of f h₂, extractionExprListCheck_none_of args h₃]
      rfl
  | .binOp l r => fun h => by
      rw [extractionExprCheck, orElse_eq_none] at h
      rw [exprHasBad, extractionExprCheck_none_of l h.1, extractionExprCheck_none_of r h.2]
      rfl
  | .subscript v i => fun h => by
      rw [extractionExprCheck, orElse_eq_none] at h
      rw [exprHasBad, extractionExprCheck_none_of v h.1, extractionExprCheck_none_of i h.2]
      rfl
theorem extractionExprListCheck_none_of :
    ∀ l : PyExprList, extractionExprListCheck l = none → exprListHasBad l = false
  | .nil => fun _ => rfl
  | .cons h t => fun hc => by
      rw [extractionExprListCheck, orElse_eq_none] at hc
      rw [exprListHasBad, extractionExprCheck_none_of h hc.1,
        extractionExprListCheck_none_of t hc.2]
      rfl
end

mutual
theorem extractionStmtCheck_none_of :
    ∀ s : PyStmt, extractionStmtCheck s = none → stmtHasBad s = false
  | .imp names => fun h => by
      rw [extractionStmtCheck, List.findSome?_eq_none_iff] at h
      rw [stmtHasBad]
      simp only [List.any_eq_false]
      intro n hn
      have hh := h n hn
      by_cases hm : n ∈ _ALLOWED_IMPORTS
      · have ht : _ALLOWED_IMPORTS.contains n = true := List.elem_eq_true_of_mem hm
        rw [ht]
        simp
      · rw [if_neg hm] at hh
        exact absurd hh (by simp)
  | .importFrom module names => fun h => by
      cases module
      case none => rfl
      case some m =>
        rw [extractionStmtCheck] at h
        by_cases hm : (m.splitOn ".").headD m ∈ _ALLOWED_IMPORTS
        · rw [stmtHasBad]
          have ht : _ALLOWED_IMPORTS.contains ((m.splitOn ".").headD m) = true :=
            List.elem_eq_true_of_mem hm
          rw [ht]
          rfl
        · rw [if_neg hm] at h
          exact absurd h (by simp)
  | .assign t v => fun h => extractionExprCheck_none_of v h
  | .exprStmt v => fun h => extractionExprCheck_none_of v h
  | .forStmt t iter body => fun h => by
      rw [extractionStmtCheck, orElse_eq_none] at h
      rw [stmtHasBad, extractionExprCheck_none_of iter h.1,
        extractionStmtListCheck_none_of body h.2]
      rfl
  | .ifStmt c t e => fun h => by
      rw [extractionStmtCheck, orElse_eq_none] at h
      obtain ⟨h₁, h₂⟩ := h
      rw [orElse_eq_none] at h₂
      rw [stmtHasBad, extractionExprCheck_none_of c h₁,
        extractionStmtListCheck_none_of t h₂.1, extractionStmtListCheck_none_of e h₂.2]
      rfl
  | .funcDef f body => fun h => extractionStmtListCheck_none_of body h
  | .ret v => fun h => extractionExprCheck_none_of v h
theorem extractionStmtListCheck_none_of :
    ∀ l : PyStmtList, extractionStmtListCheck l = none → stmtListHasBad l = false
  | .nil => fun _ => rfl
  | .cons h t => fun hc => by
      rw [extractionStmtListCheck, orElse_eq_none] at hc
      rw [stmtListHasBad, extractionStmtCheck_none_of h hc.1,
        extractionStmtListCheck_none_of t hc.2]
      rfl
end

/-- C3: the static safety check is a pure function of the program text
(its Lean type takes only the parsed program, and the execution result on a
rejected program is independent of the data `env` and of the interpreter
oracle `pyExec`); every rejected program yields exactly the one safety
error and is never executed; and every program containing a node of one of
the rejected classes is indeed rejected. -/
theorem extraction_sandbox_static_rejection (m : PyModule) :
    (∀ err, _check_extraction_code_safety m = some err →
      ∀ (env : ExecEnv) (pyExec : PyModule → ExecEnv → RunOutcome),
        _execute_extraction_script m env pyExec =
          ([], ["Script safety check failed: " ++ err])) ∧
    (∀ body, m = .parsed body → stmtListHasBad body = true →
      ∃ err, _check_extraction_code_safety m = some err) := by
  constructor
  · intro err herr env pyExec
    simp [_execute_extraction_script, herr]
  · intro body hm hbad
    subst hm
    rcases hcheck : extractionStmtListCheck body with _ | err
    · exact absurd (extractionStmtListCheck_none_of body hcheck) (by simp [hbad])
    · exact ⟨err, by simp [_check_extraction_code_safety, hcheck]⟩

/-- Witness for C3: `import os` is rejected, and execution returns exactly
the single safety error without consulting the interpreter. -/
theorem extraction_sandbox_static_rejection_witness :
    _execute_extraction_script (.parsed (.cons (.imp ["os"]) .nil))
      ⟨"data", [], 5⟩ (fun _ _ => .completes (.json [])) =
      ([], ["Script safety check failed: Blocked: import of 'os'"]) ∧
    stmtListHasBad (.cons (.imp ["os"]) .nil) = true := by
  constructor
  · exact (extraction_sandbox_static_rejection (.parsed (.cons (.imp ["os"]) .nil))).1
      "Blocked: import of 'os'" (by decide) ⟨"data", [], 5⟩ (fun _ _ => .completes (.json []))
  · decide

/-- `_execute_extraction_script` never reports success with an empty
product list: zero products always produces an error entry. -/
theorem execute_extraction_empty_products_have_errors
    (m : PyModule) (env : ExecEnv) (pyExec : PyModule → ExecEnv → RunOutcome) :
    (_execute_extraction_script m env pyExec).1 = [] →
    (_execute_extraction_script m env pyExec).2 ≠ [] := by
  unfold _execute_extraction_script
  rcases _check_extraction_code_safety m with _ | err
  · rcases pyExec m env with msg | raw
    · simp
    · rcases raw with _ | msg | products
      · simp
      · simp
      · intro hp
        simp only at hp
        subst hp
        simp
  · simp

/-- The loop performs between 1 and `fuel` execution rounds. -/
theorem extractionLoop_rounds (ex : PyModule → List Product × List String)
    (fix : PyModule → List String → Option PyModule) :
    ∀ (fuel : Nat) (script : PyModule), 1 ≤ fuel →
      1 ≤ (extractionLoop ex fix script fuel).2 ∧
      (extractionLoop ex fix script fuel).2 ≤ fuel := by
  intro fuel
  induction fuel with
  | zero => intro _ h; omega
  | succ n ih =>
    intro script _
    rw [extractionLoop]
    by_cases h₁ : (ex script).2 = []
    · simp [h₁]
    · by_cases h₂ : n = 0
      · simp [h₁, h₂]
      · simp only [h₁, h₂, if_false, if_neg]
        rcases hfix : fix script (ex script).2 with _ | fixed
        · simp [h₁, h₂, hfix]
        · have := ih fixed (by omega)
          simp [h₁, h₂, hfix]
          omega

/-- If the executor never reports an empty product list without errors,
neither does the loop's final state. -/
theorem extractionLoop_empty_imp_errors (ex : PyModule → List Product × List String)
    (fix : PyModule → List String → Option PyModule)
    (hex : ∀ s, (ex s).1 = [] → (ex s).2 ≠ []) :
    ∀ (fuel : Nat) (script : PyModule), 1 ≤ fuel →
      (extractionLoop ex fix script fuel).1.1 = [] →
      (extractionLoop ex fix script fuel).1.2 ≠ [] := by
  intro fuel
  induction fuel with
  | zero => intro _ h; omega
  | succ n ih =>
    intro script _
    rw [extractionLoop]
    by_cases h₁ : (ex script).2 = []
    · simp only [h₁, if_pos]
      intro hp
      exact absurd h₁ (hex script hp)
    · by_cases h₂ : n = 0
      · simp only [h₁, h₂, if_false, if_pos, if_neg]
        intro hp
        exact hex script hp
      · simp only [h₁, h₂, if_false, if_neg]
        rcases hfix : fix script (ex script).2 with _ | fixed
        · simp only
          intro hp
          exact hex script hp
        · simp only
          exact ih fixed (by omega)

/-- C5: the synthesis loop executes at most `MAX_EXTRACTION_RETRIES = 3`
rounds; if the final attempt produced at least one product,
`_run_and_validate_script` returns that product list (even with errors
outstanding); if the final attempt produced zero products after the rounds
were exhausted, it raises instead of returning an empty list. -/
theorem run_and_validate_script_spec (env : ExecEnv)
    (pyExec : PyModule → ExecEnv → RunOutcome)
    (fix : PyModule → List String → Option PyModule) (script : PyModule) :
    (1 ≤ (extractionLoop (fun s => _execute_extraction_script s env pyExec) fix
            script MAX_EXTRACTION_RETRIES).2 ∧
      (extractionLoop (fun s => _execute_extraction_script s env pyExec) fix
            script MAX_EXTRACTION_RETRIES).2 ≤ MAX_EXTRACTION_RETRIES) ∧
    ((extractionLoop (fun s => _execute_extraction_script s env pyExec) fix
            script MAX_EXTRACTION_RETRIES).1.1 ≠ [] →
      _run_and_validate_script (fun s => _execute_extraction_script s env pyExec)
          fix script =
        .ok (extractionLoop (fun s => _execute_extraction_script s env pyExec) fix
            script MAX_EXTRACTION_RETRIES).1.1) ∧
    ((extractionLoop (fun s => _execute_extraction_script s env pyExec) fix
            script MAX_EXTRACTION_RETRIES).1.1 = [] →
      ∃ msg, _run_and_validate_script (fun s => _execute_extraction_script s env pyExec)
          fix script = .error msg) := by
  refine ⟨extractionLoop_rounds _ _ MAX_EXTRACTION_RETRIES script (by decide), ?_, ?_⟩
  · intro hne
    unfold _run_and_validate_script
    by_cases he : (extractionLoop (fun s => _execute_extraction_script s env pyExec) fix
        script MAX_EXTRACTION_RETRIES).1.2 = []
    · simp [he]
    · simp [he, hne]
  · intro hp
    have herr := extractionLoop_empty_imp_errors
      (fun s => _execute_extraction_script s env pyExec) fix
      (fun s => execute_extraction_empty_products_have_errors s env pyExec)
      MAX_EXTRACTION_RETRIES script (by decide) hp
    refine ⟨"Extraction failed after " ++ toString MAX_EXTRACTION_RETRIES ++ " attempts", ?_⟩
    unfold _run_and_validate_script
    simp [herr, hp]

/-- Witness for C5: a trivially safe script whose single execution yields
one product and no errors; the loop runs once and the result is returned. -/
theorem run_and_validate_script_spec_witness :
    _run_and_validate_script
        (fun s => _execute_extraction_script s ⟨"data", [], 1⟩
          (fun _ _ => .completes (.json [⟨[("title", some "Bowl"), ("price", some "25")]⟩])))
        (fun _ _ => none) (.parsed .nil) =
      .ok [⟨[("title", some "Bowl"), ("price", some "25")]⟩] := by
  have h := run_and_validate_script_spec ⟨"data", [], 1⟩
    (fun _ _ => .completes (.json [⟨[("title", some "Bowl"), ("price", some "25")]⟩]))
    (fun _ _ => none) (.parsed .nil)
  exact h.2.1 (by decide)

/-- Helper: a filter keeps the whole list iff every element satisfies the
predicate. -/
theorem length_filter_eq_iff {α : Type _} (p : α → Bool) (l : List α) :
    (l.filter p).length = l.length ↔ ∀ a ∈ l, p a = true := by
  induction l with
  | nil => simp
  | cons x xs ih =>
    by_cases hx : p x = true
    · simp [hx, ih]
    · simp only [List.filter_cons, hx, Bool.false_eq_true, if_false, List.length_cons]
      constructor
      · intro h
        exfalso
        have hle := xs.length_filter_le p
        omega
      · intro h
        exact absurd (h x (by simp)) hx

/-- C1: for every combined validation result built from a code-validation
result and a judge result, `passed = true` iff the structural issue list is
empty and every semantic judge criterion passed. -/
theorem combine_validation_passed_iff (cv : VResult) (crits : List JudgeCriterion) :
    (combine_validation cv (llm_judge_listing crits)).passed = true ↔
      (cv.issues = [] ∧ ∀ c ∈ crits, c.pass = true) := by
  simp only [combine_validation, llm_judge_listing, Bool.and_eq_true,
    List.isEmpty_iff, beq_iff_eq]
  exact and_congr Iff.rfl (length_filter_eq_iff _ _)

/-- C2: the composite score equals
`max 0 (100 − 15×(structural issues) − 12×(failed criteria))`; it always
lies in `[0, 100]`; and it is monotonically non-increasing in each count. -/
theorem combine_validation_score_spec :
    (∀ (cv : VResult) (jr : JudgeResult),
        (combine_validation cv jr).score =
          compositeScore cv.issues.length
            ((jr.criteria.filter (fun c => !c.pass)).length)) ∧
    (∀ c f : Nat, 0 ≤ compositeScore c f ∧ compositeScore c f ≤ 100) ∧
    (∀ c₁ c₂ f : Nat, c₁ ≤ c₂ → compositeScore c₂ f ≤ compositeScore c₁ f) ∧
    (∀ c f₁ f₂ : Nat, f₁ ≤ f₂ → compositeScore c f₂ ≤ compositeScore c f₁) := by
  refine ⟨?_, ?_, ?_, ?_⟩
  · intro cv jr
    simp only [combine_validation, compositeScore]
    ring_nf
  · intro c f
    unfold compositeScore
    constructor
    · exact le_max_left 0 _
    · have h15 : (0 : Int) ≤ 15 * (c : Int) := by positivity
      have h12 : (0 : Int) ≤ 12 * (f : Int) := by positivity
      apply max_le <;> omega
  · intro c₁ c₂ f h
    unfold compositeScore
    have : (c₁ : Int) ≤ (c₂ : Int) := by exact_mod_cast h
    apply max_le (le_max_left 0 _)
    apply le_max_of_le_right
    omega
  · intro c f₁ f₂ h
    unfold compositeScore
    have : (f₁ : Int) ≤ (f₂ : Int) := by exact_mod_cast h
    apply max_le (le_max_left 0 _)
    apply le_max_of_le_right
    omega

/-- Witness for C2 at concrete inputs: one structural issue and one failed
criterion give score `max 0 (100-15-12) = 73`, and the monotonicity parts
are discharged at `1 ≤ 2`. -/
theorem combine_validation_score_spec_witness :
    (combine_validation ⟨false, 0, ["too short"]⟩
        (llm_judge_listing [⟨"tone", "q", false, "r"⟩])).score =
      compositeScore 1 1 ∧
    compositeScore 2 0 ≤ compositeScore 1 0 ∧
    compositeScore 0 2 ≤ compositeScore 0 1 := by
  refine ⟨?_, ?_, ?_⟩
  · exact combine_validation_score_spec.1 ⟨false, 0, ["too short"]⟩
      (llm_judge_listing [⟨"tone", "q", false, "r"⟩])
  · exact combine_validation_score_spec.2.2.1 1 2 0 (by decide)
  · exact combine_validation_score_spec.2.2.2 0 1 2 (by decide)

/-- C6 counterexample: a validation program that passes the safety check
but raises at runtime does *not* fall back to `_basic_validation` — it
yields the fixed failure result of the `except` branch.  The conjuncts
record that the claim's hypotheses hold at this input (the program is
non-blank, accepted by the safety check, and throws). -/
theorem run_validation_throw_not_basic :
    run_validation cexListing cexStyle cexThrowingCode ≠
      _basic_validation cexListing cexStyle ∧
    cexThrowingCode.behavior cexListing cexStyle = .raises "boom" ∧
    _check_code_safety cexThrowingCode.ast = none ∧
    cexThrowingCode.isBlank = false := by
  refine ⟨?_, rfl, rfl, rfl⟩
  decide

/-- C6 (amended): `run_validation` returns `_basic_validation` when the
program is blank, rejected by the static safety check, defines no
`validate_listing`, or returns a non-dict; a program that throws during
execution instead yields `{passed := false, score := 0,
issues := ["Validation code error: <msg>"]}`. -/
theorem run_validation_fallback_spec (l : ListingV) (sp : StyleProfile)
    (vc : ValidationCode) :
    (vc.isBlank = true → run_validation l sp vc = _basic_validation l sp) ∧
    (∀ err, vc.isBlank = false → _check_code_safety vc.ast = some err →
      run_validation l sp vc = _basic_validation l sp) ∧
    (vc.isBlank = false → _check_code_safety vc.ast = none →
      vc.behavior l sp = .noFunction →
      run_validation l sp vc = _basic_validation l sp) ∧
    (vc.isBlank = false → _check_code_safety vc.ast = none →
      vc.behavior l sp = .nonDict →
      run_validation l sp vc = _basic_validation l sp) ∧
    (∀ msg, vc.isBlank = false → _check_code_safety vc.ast = none →
      vc.behavior l sp = .raises msg →
      run_validation l sp vc =
        { passed := false, score := 0, issues := ["Validation code error: " ++ msg] }) := by
  refine ⟨?_, ?_, ?_, ?_, ?_⟩
  · intro hb
    simp [run_validation, hb]
  · intro err hb hc
    simp [run_validation, hb, hc]
  · intro hb hc hbev
    simp [run_validation, hb, hc, hbev]
  · intro hb hc hbev
    simp [run_validation, hb, hc, hbev]
  · intro msg hb hc hbev
    simp [run_validation, hb, hc, hbev]

/-- Witness for C6: a blank program falls back to the built-in rules, and
the concrete throwing program yields the fixed failure result. -/
theorem run_validation_fallback_spec_witness :
    run_validation cexListing cexStyle ⟨true, .parsed .nil, fun _ _ => .noFunction⟩ =
      _basic_validation cexListing cexStyle ∧
    run_validation cexListing cexStyle cexThrowingCode =
      { passed := false, score := 0, issues := ["Validation code error: boom"] } := by
  constructor
  · exact (run_validation_fallback_spec cexListing cexStyle
      ⟨true, .parsed .nil, fun _ _ => .noFunction⟩).1 rfl
  · exact (run_validation_fallback_spec cexListing cexStyle cexThrowingCode).2.2.2.2
      "boom" rfl rfl rfl

/-- C8: the refined recipe has `version = version + 1` and
`approved = false`; every artifact the response omits is carried over from
the input recipe (through the same `get(..., DEFAULT)` fallbacks the code
uses, so a present input artifact is preserved verbatim); `test_results`
is carried over; and the result is a new value, never the input recipe
itself (the Python code builds a fresh dict and does not write to its
argument — in this pure embedding, the output provably differs from the
input). -/
theorem refine_recipe_contract (r : Recipe) (u : RefineResponse) :
    (refine_recipe r u).version = r.version + 1 ∧
    (refine_recipe r u).approved = false ∧
    (u.prompt_template = none →
      (refine_recipe r u).prompt_template = r.prompt_template) ∧
    (∀ s, u.output_schema = none → r.output_schema = some s →
      (refine_recipe r u).output_schema = some s) ∧
    (∀ c, u.validation_code = none → r.validation_code = some c →
      (refine_recipe r u).validation_code = some c) ∧
    (refine_recipe r u).test_results = r.test_results ∧
    refine_recipe r u ≠ r := by
  refine ⟨rfl, rfl, ?_, ?_, ?_, rfl, ?_⟩
  · intro h
    simp [refine_recipe, h]
  · intro s hu hr
    simp [refine_recipe, hu, hr]
  · intro c hu hr
    simp [refine_recipe, hu, hr]
  · intro h
    have hv : (refine_recipe r u).version = r.version := by rw [h]
    simp only [refine_recipe] at hv
    omega

/-- Witness for C8 at a concrete recipe and a response that omits every
artifact. -/
theorem refine_recipe_contract_witness :
    (refine_recipe
        { version := 3, prompt_template := "write a listing",
          output_schema := some "schema-v3", validation_code := some "code-v3",
          test_results := ["t1"], approved := true, changes_made := "" }
        { prompt_template := none, output_schema := none,
          validation_code := none, changes_made := none }).version = 4 ∧
    (refine_recipe
        { version := 3, prompt_template := "write a listing",
          output_schema := some "schema-v3", validation_code := some "code-v3",
          test_results := ["t1"], approved := true, changes_made := "" }
        { prompt_template := none, output_schema := none,
          validation_code := none, changes_made := none }).output_schema =
      some "schema-v3" := by
  constructor
  · exact (refine_recipe_contract
      { version := 3, prompt_template := "write a listing",
        output_schema := some "schema-v3", validation_code := some "code-v3",
        test_results := ["t1"], approved := true, changes_made := "" }
      { prompt_template := none, output_schema := none,
        validation_code := none, changes_made := none }).1
  · exact (refine_recipe_contract
      { version := 3, prompt_template := "write a listing",
        output_schema := some "schema-v3", validation_code := some "code-v3",
        test_results := ["t1"], approved := true, changes_made := "" }
      { prompt_template := none, output_schema := none,
        validation_code := none, changes_made := none }).2.2.2.1
      "schema-v3" rfl rfl

set_option maxRecDepth 40000 in
/-- Sanity check of the SHA-256 embedding against the FIPS 180-2 test
vector for `"abc"`. -/
theorem sha256hex_abc :
    sha256hex (utf8Bytes "abc") =
      "ba7816bf8f01cfea414140de5dae2223b00361a396177a9cb410ff61f20015ad" := by
  decide

theorem strLeList_total : ∀ as bs : List Char,
    strLeList as bs = true ∨ strLeList bs as = true
  | [], _ => Or.inl rfl
  | _ :: _, [] => Or.inr rfl
  | a :: as, b :: bs => by
      rw [strLeList, strLeList]
      rcases Nat.lt_trichotomy a.toNat b.toNat with h | h | h
      · left
        simp [h]
      · have hab : ¬ a.toNat < b.toNat := by omega
        have hba : ¬ b.toNat < a.toNat := by omega
        rcases strLeList_total as bs with ih | ih
        · left
          simp [hab, hba, ih]
        · right
          simp [hab, hba, ih]
      · right
        simp [h]

theorem strLeList_trans : ∀ as bs cs : List Char,
    strLeList as bs = true → strLeList bs cs = true → strLeList as cs = true
  | [], _, _ => fun _ _ => rfl
  | _ :: _, [], _ => fun h _ => by rw [strLeList] at h; exact absurd h (by simp)
  | _ :: _, _ :: _, [] => fun _ h => by rw [strLeList] at h; exact absurd h (by simp)
  | a :: as, b :: bs, c :: cs => fun h₁ h₂ => by
      rw [strLeList] at h₁ h₂ ⊢
      by_cases hab : a.toNat < b.toNat
      · by_cases hbc : b.toNat < c.toNat
        · have hac : a.toNat < c.toNat := by omega
          simp [hac]
        · by_cases hcb : c.toNat < b.toNat
          · rw [if_neg hbc, if_pos hcb] at h₂
            exact absurd h₂ (by simp)
          · have hac : a.toNat < c.toNat := by omega
            simp [hac]
      · by_cases hba : b.toNat < a.toNat
        · rw [if_neg hab, if_pos hba] at h₁
          exact absurd h₁ (by simp)
        · rw [if_neg hab, if_neg hba] at h₁
          by_cases hbc : b.toNat < c.toNat
          · have hac : a.toNat < c.toNat := by omega
            simp [hac]
          · by_cases hcb : c.toNat < b.toNat
            · rw [if_neg hbc, if_pos hcb] at h₂
              exact absurd h₂ (by simp)
            · rw [if_neg hbc, if_neg hcb] at h₂
              have hac : ¬ a.toNat < c.toNat := by omega
              have hca : ¬ c.toNat < a.toNat := by omega
              rw [if_neg hac, if_neg hca]
              exact strLeList_trans as bs cs h₁ h₂

theorem strLeList_antisymm : ∀ as bs : List Char,
    strLeList as bs = true → strLeList bs as = true → as = bs
  | [], [] => fun _ _ => rfl
  | [], _ :: _ => fun _ h => by rw [strLeList] at h; exact absurd h (by simp)
  | _ :: _, [] => fun h _ => by rw [strLeList] at h; exact absurd h (by simp)
  | a :: as, b :: bs => fun h₁ h₂ => by
      rw [strLeList] at h₁ h₂
      by_cases hab : a.toNat < b.toNat
      · have hba : ¬ b.toNat < a.toNat := by omega
        rw [if_neg hba, if_pos hab] at h₂
        exact absurd h₂ (by simp)
      · by_cases hba : b.toNat < a.toNat
        · rw [if_neg hab, if_pos hba] at h₁
          exact absurd h₁ (by simp)
        · rw [if_neg hab, if_neg hba] at h₁
          rw [if_neg hba, if_neg hab] at h₂
          have hn : a.toNat = b.toNat := by omega
          have hc : a = b := by
            have hof := congrArg Char.ofNat hn
            rwa [Char.ofNat_toNat, Char.ofNat_toNat] at hof
          rw [hc, strLeList_antisymm as bs h₁ h₂]

set_option maxRecDepth 40000 in
/-- C9 counterexample: `["a", "B"]` and `["A", "b"]` have the same
normalized name set `{a, b}`, but their fingerprints differ — the code
sorts *before* normalizing, and `"B" < "a"` while `"A" < "b"` in
code-point order, so the joined strings are `"b|a"` and `"a|b"`.
This refutes claim C9 as stated. -/
theorem column_fingerprint_case_sensitive_cex :
    normalizedNameSet ["a", "B"] = normalizedNameSet ["A", "b"] ∧
    _column_fingerprint ["a", "B"] ≠ _column_fingerprint ["A", "b"] := by
  constructor
  · decide
  · decide

/-- C9 (amended): the fingerprint is a stable hash of the *sorted header
list with normalization applied after sorting*: it is invariant under
permutations of the header list (so ordering never matters), but because
`sorted(headers)` runs on the raw names, two lists that agree only up to
letter case can sort differently and receive different fingerprints. -/
theorem column_fingerprint_perm_invariant (h₁ h₂ : List String) (hp : h₁.Perm h₂) :
    _column_fingerprint h₁ = _column_fingerprint h₂ := by
  unfold _column_fingerprint pySorted
  have hr : List.insertionSort (fun a b => pyStrLe a b = true) h₁ =
      List.insertionSort (fun a b => pyStrLe a b = true) h₂ := by
    haveI : IsTotal String (fun a b => pyStrLe a b = true) :=
      ⟨fun a b => strLeList_total a.data b.data⟩
    haveI : IsTrans String (fun a b => pyStrLe a b = true) :=
      ⟨fun a b c => strLeList_trans a.data b.data c.data⟩
    haveI : IsAntisymm String (fun a b => pyStrLe a b = true) :=
      ⟨fun a b hab hba => String.ext (strLeList_antisymm a.data b.data hab hba)⟩
    exact List.eq_of_perm_of_sorted
      ((List.perm_insertionSort _ _).trans (hp.trans (List.perm_insertionSort _ _).symm))
      (List.sorted_insertionSort _ _) (List.sorted_insertionSort _ _)
  rw [hr]

/-- Witness for C9's amended theorem at a concrete swap. -/
theorem column_fingerprint_perm_invariant_witness :
    _column_fingerprint ["b", "a"] = _column_fingerprint ["a", "b"] :=
  column_fingerprint_perm_invariant ["b", "a"] ["a", "b"] (List.Perm.swap "a" "b" [])

/-- Splitting the write-before-notify scan over an append. -/
theorem wbnAux_append (i : Nat) :
    ∀ (tr es : List BatchEvent) (b : Bool),
      wbnAux i b (tr ++ es) ↔
        wbnAux i b tr ∧ wbnAux i (b || tr.any (isSaveFor i)) es
  | [], es, b => by simp [wbnAux]
  | e :: tr, es, b => by
      rw [List.cons_append, wbnAux, wbnAux, wbnAux_append i tr es (b || isSaveFor i e)]
      rw [List.any_cons]
      constructor
      · rintro ⟨h₁, h₂, h₃⟩
        refine ⟨⟨h₁, h₂⟩, ?_⟩
        rwa [Bool.or_assoc] at h₃
      · rintro ⟨⟨h₁, h₂⟩, h₃⟩
        refine ⟨h₁, h₂, ?_⟩
        rwa [← Bool.or_assoc] at h₃

/-- Summing a per-task quantity after a single task's phase is replaced. -/
theorem batch_sum_update (g : TaskPhase → Nat) (f : Nat → TaskPhase)
    {n i : Nat} (hi : i < n) (ph : TaskPhase) :
    (∑ j ∈ Finset.range n, g (Function.update f i ph j)) + g (f i) =
    (∑ j ∈ Finset.range n, g (f j)) + g ph := by
  have hfu : (fun j => g (Function.update f i ph j)) =
      Function.update (fun j => g (f j)) i (g ph) := by
    funext j
    rcases eq_or_ne j i with rfl | hj
    · simp
    · simp [Function.update_noteq hj]
  have hmem : i ∈ Finset.range n := Finset.mem_range.mpr hi
  have h1 : ∑ j ∈ Finset.range n, g (Function.update f i ph j) =
      g ph + ∑ j ∈ (Finset.range n) \ {i}, g (f j) := by
    calc ∑ j ∈ Finset.range n, g (Function.update f i ph j)
        = ∑ j ∈ Finset.range n, Function.update (fun j => g (f j)) i (g ph) j := by
          rw [hfu]
      _ = g ph + ∑ j ∈ (Finset.range n) \ {i}, g (f j) :=
          Finset.sum_update_of_mem hmem _ _
  have h2 : ∑ j ∈ Finset.range n, g (f j) =
      g (f i) + ∑ j ∈ (Finset.range n).erase i, g (f j) :=
    (Finset.add_sum_erase _ _ hmem).symm
  rw [h1, h2, ← Finset.sdiff_singleton_eq_erase]
  omega

/-- The invariant holds at the launched batch. -/
theorem batchInv_init (outcome : Nat → ProcOutcome) (meta : Nat → ItemMeta) (n : Nat) :
    BatchInv outcome meta n (batchInit n) := by
  constructor
  · simp [runningCount, batchInit]
  · intro i _ _
    exact Or.inl rfl
  · intro i _ h
    simp [batchInit] at h
  · intro i _ h
    rcases h with h | ⟨r, c, h⟩ <;> simp [batchInit] at h
  · intro i r _ h
    simp [batchInit] at h
  · intro i _ h
    simp [batchInit] at h
  · intro i r c _ h
    simp [batchInit] at h
  · intro i
    simp [batchInit, wbnAux, isProgressFor]

theorem any_isSaveFor_of_mem {i : Nat} {r : ItemResult} {tr : List BatchEvent}
    (h : BatchEvent.save i r ∈ tr) : tr.any (isSaveFor i) = true :=
  List.any_eq_true.mpr ⟨_, h, by simp [isSaveFor]⟩

/-- One step preserves the batch invariant. -/
theorem batchInv_step {outcome : Nat → ProcOutcome} {meta : Nat → ItemMeta} {n : Nat}
    {s s' : BatchState} (hinv : BatchInv outcome meta n s)
    (hstep : BatchStep outcome meta n s s') : BatchInv outcome meta n s' := by
  obtain ⟨hsem, hnst, hsp, hsr, hsok, hsq, hnsv, hwbn⟩ := hinv
  cases hstep with
  | startQuota i hi hph hq =>
    have hrc := batch_sum_update (fun ph => if ph = TaskPhase.running then 1 else 0)
      s.tasks hi (.done (quotaFailedResult (meta i)))
    rw [hph] at hrc
    simp only [reduceCtorEq, reduceIte, if_true, if_false] at hrc
    constructor
    · simp only [runningCount] at hsem ⊢
      omega
    · intro k hk hst
      rcases eq_or_ne k i with rfl | hki
      · simp only [Function.update_same]
        exact Or.inr (Or.inr trivial)
      · simp only [Function.update_noteq hki]
        exact hnst k hk hst
    · intro k hk hst
      rcases eq_or_ne k i with rfl | hki
      · simp only [Function.update_same]
        exact Or.inr (Or.inr ⟨_, rfl⟩)
      · simp only [Function.update_noteq hki]
        exact hsp k hk hst
    · intro k hk hph'
      rcases eq_or_ne k i with rfl | hki
      · simp only [Function.update_same] at hph'
        rcases hph' with h | ⟨r, c, h⟩ <;> exact absurd h (by simp)
      · simp only [Function.update_noteq hki] at hph'
        exact hsr k hk hph'
    · intro k r hk hst hout
      rcases eq_or_ne k i with rfl | hki
      · have := hsp k hk hst
        rw [hph] at this
        rcases this with h | ⟨r', c', h⟩ | ⟨r', h⟩ <;> exact absurd h (by simp)
      · simp only [Function.update_noteq hki]
        exact hsok k r hk hst hout
    · intro k hk hst hout
      rcases eq_or_ne k i with rfl | hki
      · have := hsp k hk hst
        rw [hph] at this
        rcases this with h | ⟨r', c', h⟩ | ⟨r', h⟩ <;> exact absurd h (by simp)
      · simp only [Function.update_noteq hki]
        exact hsq k hk hst hout
    · intro k r c hk hph'
      rcases eq_or_ne k i with rfl | hki
      · simp only [Function.update_same] at hph'
        exact absurd hph' (by simp)
      · simp only [Function.update_noteq hki] at hph'
        exact hnsv k r c hk hph'
    · exact hwbn
  | startWait i hi hph hq hsem0 =>
    have hrc := batch_sum_update (fun ph => if ph = TaskPhase.running then 1 else 0)
      s.tasks hi .waitingSem
    rw [hph] at hrc
    simp only [reduceCtorEq, reduceIte, if_true, if_false] at hrc
    constructor
    · simp only [runningCount] at hsem ⊢
      omega
    · intro k hk hst
      rcases eq_or_ne k i with rfl | hki
      · simp only [Function.update_same]
        exact Or.inr (Or.inl trivial)
      · simp only [Function.update_noteq hki]
        exact hnst k hk hst
    · intro k hk hst
      rcases eq_or_ne k i with rfl | hki
      · have := hsp k hk hst
        rw [hph] at this
        rcases this with h | ⟨r', c', h⟩ | ⟨r', h⟩ <;> exact absurd h (by simp)
      · simp only [Function.update_noteq hki]
        exact hsp k hk hst
    · intro k hk hph'
      rcases eq_or_ne k i with rfl | hki
      · simp only [Function.update_same] at hph'
        rcases hph' with h | ⟨r, c, h⟩ <;> exact absurd h (by simp)
      · simp only [Function.update_noteq hki] at hph'
        exact hsr k hk hph'
    · intro k r hk hst hout
      rcases eq_or_ne k i with rfl | hki
      · have := hsp k hk hst
        rw [hph] at this
        rcases this with h | ⟨r', c', h⟩ | ⟨r', h⟩ <;> exact absurd h (by simp)
      · simp only [Function.update_noteq hki]
        exact hsok k r hk hst hout
    · intro k hk hst hout
      rcases eq_or_ne k i with rfl | hki
      · have := hsp k hk hst
        rw [hph] at this
        rcases this with h | ⟨r', c', h⟩ | ⟨r', h⟩ <;> exact absurd h (by simp)
      · simp only [Function.update_noteq hki]
        exact hsq k hk hst hout
    · intro k r c hk hph'
      rcases eq_or_ne k i with rfl | hki
      · simp only [Function.update_same] at hph'
        exact absurd hph' (by simp)
      · simp only [Function.update_noteq hki] at hph'
        exact hnsv k r c hk hph'
    · exact hwbn
  | startRun i hi hph hq hsempos =>
    have hrc := batch_sum_update (fun ph => if ph = TaskPhase.running then 1 else 0)
      s.tasks hi .running
    rw [hph] at hrc
    simp only [reduceCtorEq, reduceIte, if_true, if_false] at hrc
    constructor
    · simp only [runningCount] at hsem ⊢
      omega
    · intro k hk hst
      rcases eq_or_ne k i with rfl | hki
      · simp only [Function.update_same] at hst
        exact absurd hst (by simp)
      · simp only [Function.update_noteq hki] at hst
        simp only [Function.update_noteq hki]
        exact hnst k hk hst
    · intro k hk hst
      rcases eq_or_ne k i with rfl | hki
      · simp only [Function.update_same]
        exact Or.inl trivial
      · simp only [Function.update_noteq hki] at hst
        simp only [Function.update_noteq hki]
        exact hsp k hk hst
    · intro k hk hph'
      rcases eq_or_ne k i with rfl | hki
      · simp only [Function.update_same]
      · simp only [Function.update_noteq hki] at hph'
        simp only [Function.update_noteq hki]
        exact hsr k hk hph'
    · intro k r hk hst hout
      rcases eq_or_ne k i with rfl | hki
      · simp only [Function.update_same]
        exact Or.inl trivial
      · simp only [Function.update_noteq hki] at hst
        simp only [Function.update_noteq hki]
        exact hsok k r hk hst hout
    · intro k hk hst hout
      rcases eq_or_ne k i with rfl | hki
      · simp only [Function.update_same]
        exact Or.inl trivial
      · simp only [Function.update_noteq hki] at hst
        simp only [Function.update_noteq hki]
        exact hsq k hk hst hout
    · intro k r c hk hph'
      rcases eq_or_ne k i with rfl | hki
      · simp only [Function.update_same] at hph'
        exact absurd hph' (by simp)
      · simp only [Function.update_noteq hki] at hph'
        exact hnsv k r c hk hph'
    · exact hwbn
  | wakeQuota i hi hph hq hsempos =>
    have hrc := batch_sum_update (fun ph => if ph = TaskPhase.running then 1 else 0)
      s.tasks hi (.done (quotaFailedResult (meta i)))
    rw [hph] at hrc
    simp only [reduceCtorEq, reduceIte, if_true, if_false] at hrc
    constructor
    · simp only [runningCount] at hsem ⊢
      omega
    · intro k hk hst
      rcases eq_or_ne k i with rfl | hki
      · simp only [Function.update_same]
        exact Or.inr (Or.inr trivial)
      · simp only [Function.update_noteq hki]
        exact hnst k hk hst
    · intro k hk hst
      rcases eq_or_ne k i with rfl | hki
      · simp only [Function.update_same]
        exact Or.inr (Or.inr ⟨_, rfl⟩)
      · simp only [Function.update_noteq hki]
        exact hsp k hk hst
    · intro k hk hph'
      rcases eq_or_ne k i with rfl | hki
      · simp only [Function.update_same] at hph'
        rcases hph' with h | ⟨r, c, h⟩ <;> exact absurd h (by simp)
      · simp only [Function.update_noteq hki] at hph'
        exact hsr k hk hph'
    · intro k r hk hst hout
      rcases eq_or_ne k i with rfl | hki
      · have := hsp k hk hst
        rw [hph] at this
        rcases this with h | ⟨r', c', h⟩ | ⟨r', h⟩ <;> exact absurd h (by simp)
      · simp only [Function.update_noteq hki]
        exact hsok k r hk hst hout
    · intro k hk hst hout
      rcases eq_or_ne k i with rfl | hki
      · have := hsp k hk hst
        rw [hph] at this
        rcases this with h | ⟨r', c', h⟩ | ⟨r', h⟩ <;> exact absurd h (by simp)
      · simp only [Function.update_noteq hki]
        exact hsq k hk hst hout
    · intro k r c hk hph'
      rcases eq_or_ne k i with rfl | hki
      · simp only [Function.update_same] at hph'
        exact absurd hph' (by simp)
      · simp only [Function.update_noteq hki] at hph'
        exact hnsv k r c hk hph'
    · exact hwbn
  | wakeRun i hi hph hq hsempos =>
    have hrc := batch_sum_update (fun ph => if ph = TaskPhase.running then 1 else 0)
      s.tasks hi .running
    rw [hph] at hrc
    simp only [reduceCtorEq, reduceIte, if_true, if_false] at hrc
    constructor
    · simp only [runningCount] at hsem ⊢
      omega
    · intro k hk hst
      rcases eq_or_ne k i with rfl | hki
      · simp only [Function.update_same] at hst
        exact absurd hst (by simp)
      · simp only [Function.update_noteq hki] at hst
        simp only [Function.update_noteq hki]
        exact hnst k hk hst
    · intro k hk hst
      rcases eq_or_ne k i with rfl | hki
      · simp only [Function.update_same]
        exact Or.inl trivial
      · simp only [Function.update_noteq hki] at hst
        simp only [Function.update_noteq hki]
        exact hsp k hk hst
    · intro k hk hph'
      rcases eq_or_ne k i with rfl | hki
      · simp only [Function.update_same]
      · simp only [Function.update_noteq hki] at hph'
        simp only [Function.update_noteq hki]
        exact hsr k hk hph'
    · intro k r hk hst hout
      rcases eq_or_ne k i with rfl | hki
      · simp only [Function.update_same]
        exact Or.inl trivial
      · simp only [Function.update_noteq hki] at hst
        simp only [Function.update_noteq hki]
        exact hsok k r hk hst hout
    · intro k hk hst hout
      rcases eq_or_ne k i with rfl | hki
      · simp only [Function.update_same]
        exact Or.inl trivial
      · simp only [Function.update_noteq hki] at hst
        simp only [Function.update_noteq hki]
        exact hsq k hk hst hout
    · intro k r c hk hph'
      rcases eq_or_ne k i with rfl | hki
      · simp only [Function.update_same] at hph'
        exact absurd hph' (by simp)
      · simp only [Function.update_noteq hki] at hph'
        exact hnsv k r c hk hph'
    · exact hwbn
  | finishOk i r hi hph hout =>
    have hrc := batch_sum_update (fun ph => if ph = TaskPhase.running then 1 else 0)
      s.tasks hi (.notifying r (s.completed + 1))
    rw [hph] at hrc
    simp only [reduceCtorEq, reduceIte, if_true, if_false] at hrc
    have hnoprog : ∀ e ∈ (if r.retried then [BatchEvent.retrying i] else []) ++
        [BatchEvent.save i r], ∀ i', isProgressFor i' e = false := by
      intro e he i'
      rcases List.mem_append.mp he with he | he
      · rcases hr : r.retried with _ | _
        · rw [hr] at he
          exact absurd he (by simp)
        · rw [hr] at he
          rcases List.mem_singleton.mp he with rfl
          rfl
      · rcases List.mem_singleton.mp he with rfl
        rfl
    have hwbnApp : ∀ i', wbnAux i' false (s.trace ++
        ((if r.retried then [BatchEvent.retrying i] else []) ++ [BatchEvent.save i r])) := by
      intro i'
      rw [wbnAux_append]
      refine ⟨hwbn i', ?_⟩
      rcases hr : r.retried with _ | _
      · simp [wbnAux, hnoprog]
      · constructor
        · intro hpe
          rw [hnoprog (BatchEvent.retrying i) (by simp [hr]) i'] at hpe
          exact absurd hpe (by simp)
        · constructor
          · intro hpe
            rw [hnoprog (BatchEvent.save i r) (by simp) i'] at hpe
            exact absurd hpe (by simp)
          · trivial
    constructor
    · simp only [runningCount] at hsem ⊢
      omega
    · intro k hk hst
      rcases eq_or_ne k i with rfl | hki
      · have : s.started k = true := hsr k hk (Or.inl hph)
        rw [this] at hst
        exact absurd hst (by simp)
      · simp only [Function.update_noteq hki]
        exact hnst k hk hst
    · intro k hk hst
      rcases eq_or_ne k i with rfl | hki
      · simp only [Function.update_same]
        exact Or.inr (Or.inl ⟨_, _, rfl⟩)
      · simp only [Function.update_noteq hki]
        exact hsp k hk hst
    · intro k hk hph'
      rcases eq_or_ne k i with rfl | hki
      · exact hsr k hk (Or.inl hph)
      · simp only [Function.update_noteq hki] at hph'
        exact hsr k hk hph'
    · intro k r' hk hst hout'
      rcases eq_or_ne k i with rfl | hki
      · simp only [Function.update_same]
        rw [hout] at hout'
        injection hout' with hrr
        subst hrr
        exact Or.inr (Or.inl ⟨_, rfl⟩)
      · simp only [Function.update_noteq hki]
        exact hsok k r' hk hst hout'
    · intro k hk hst hout'
      rcases eq_or_ne k i with rfl | hki
      · rw [hout] at hout'
        exact absurd hout' (by simp)
      · simp only [Function.update_noteq hki]
        rcases hsq k hk hst hout' with h | ⟨h, hfl⟩
        · exact Or.inl h
        · exact Or.inr ⟨h, hfl⟩
    · intro k r' c' hk hph'
      rcases eq_or_ne k i with rfl | hki
      · simp only [Function.update_same] at hph'
        rcases hph' with ⟨rfl, rfl⟩
        simp
      · simp only [Function.update_noteq hki] at hph'
        have := hnsv k r' c' hk hph'
        simp [this]
    · intro i'
      have := hwbnApp i'
      rwa [← List.append_assoc] at this
  | finishQuota i hi hph hout =>
    have hrc := batch_sum_update (fun ph => if ph = TaskPhase.running then 1 else 0)
      s.tasks hi (.done (quotaFailedResult (meta i)))
    rw [hph] at hrc
    simp only [reduceCtorEq, reduceIte, if_true, if_false] at hrc
    constructor
    · simp only [runningCount] at hsem ⊢
      omega
    · intro k hk hst
      rcases eq_or_ne k i with rfl | hki
      · have : s.started k = true := hsr k hk (Or.inl hph)
        rw [this] at hst
        exact absurd hst (by simp)
      · simp only [Function.update_noteq hki]
        exact hnst k hk hst
    · intro k hk hst
      rcases eq_or_ne k i with rfl | hki
      · simp only [Function.update_same]
        exact Or.inr (Or.inr ⟨_, rfl⟩)
      · simp only [Function.update_noteq hki]
        exact hsp k hk hst
    · intro k hk hph'
      rcases eq_or_ne k i with rfl | hki
      · simp only [Function.update_same] at hph'
        rcases hph' with h | ⟨r', c', h⟩ <;> exact absurd h (by simp)
      · simp only [Function.update_noteq hki] at hph'
        exact hsr k hk hph'
    · intro k r' hk hst hout'
      rcases eq_or_ne k i with rfl | hki
      · rw [hout] at hout'
        exact absurd hout' (by simp)
      · simp only [Function.update_noteq hki]
        exact hsok k r' hk hst hout'
    · intro k hk hst hout'
      rcases eq_or_ne k i with rfl | hki
      · simp only [Function.update_same]
        exact Or.inr ⟨by trivial, by trivial⟩
      · simp only [Function.update_noteq hki]
        rcases hsq k hk hst hout' with h | ⟨h, _⟩
        · exact Or.inl h
        · exact Or.inr ⟨h, by trivial⟩
    · intro k r' c' hk hph'
      rcases eq_or_ne k i with rfl | hki
      · simp only [Function.update_same] at hph'
        exact absurd hph' (by simp)
      · simp only [Function.update_noteq hki] at hph'
        have := hnsv k r' c' hk hph'
        simp [this]
    · intro i'
      rw [wbnAux_append]
      refine ⟨hwbn i', ?_, trivial⟩
      intro hpe
      exact absurd hpe (by simp [isProgressFor])
  | notify i r c hi hph =>
    have hrc := batch_sum_update (fun ph => if ph = TaskPhase.running then 1 else 0)
      s.tasks hi (.done r)
    rw [hph] at hrc
    simp only [reduceCtorEq, reduceIte, if_true, if_false] at hrc
    constructor
    · simp only [runningCount] at hsem ⊢
      omega
    · intro k hk hst
      rcases eq_or_ne k i with rfl | hki
      · have : s.started k = true := hsr k hk (Or.inr ⟨_, _, hph⟩)
        rw [this] at hst
        exact absurd hst (by simp)
      · simp only [Function.update_noteq hki]
        exact hnst k hk hst
    · intro k hk hst
      rcases eq_or_ne k i with rfl | hki
      · simp only [Function.update_same]
        exact Or.inr (Or.inr ⟨_, rfl⟩)
      · simp only [Function.update_noteq hki]
        exact hsp k hk hst
    · intro k hk hph'
      rcases eq_or_ne k i with rfl | hki
      · simp only [Function.update_same] at hph'
        rcases hph' with h | ⟨r', c', h⟩ <;> exact absurd h (by simp)
      · simp only [Function.update_noteq hki] at hph'
        exact hsr k hk hph'
    · intro k r' hk hst hout'
      rcases eq_or_ne k i with rfl | hki
      · simp only [Function.update_same]
        rcases hsok k r' hk hst hout' with h | ⟨c', h⟩ | h
        · rw [hph] at h
          exact absurd h (by simp)
        · rw [hph] at h
          rcases h with ⟨rfl, rfl⟩
          exact Or.inr (Or.inr rfl)
        · rw [hph] at h
          exact absurd h (by simp)
      · simp only [Function.update_noteq hki]
        exact hsok k r' hk hst hout'
    · intro k hk hst hout'
      rcases eq_or_ne k i with rfl | hki
      · rcases hsq k hk hst hout' with h | ⟨h, _⟩
        · rw [hph] at h
          exact absurd h (by simp)
        · rw [hph] at h
          exact absurd h (by simp)
      · simp only [Function.update_noteq hki]
        rcases hsq k hk hst hout' with h | ⟨h, hfl⟩
        · exact Or.inl h
        · exact Or.inr ⟨h, hfl⟩
    · intro k r' c' hk hph'
      rcases eq_or_ne k i with rfl | hki
      · simp only [Function.update_same] at hph'
        exact absurd hph' (by simp)
      · simp only [Function.update_noteq hki] at hph'
        have := hnsv k r' c' hk hph'
        simp [this]
    · intro i'
      rw [wbnAux_append]
      refine ⟨hwbn i', ?_, trivial⟩
      intro hpe
      rcases eq_or_ne i' i with rfl | hii
      · simp only [Bool.false_or]
        exact any_isSaveFor_of_mem (hnsv i' r c hi hph)
      · rw [show isProgressFor i' (BatchEvent.progress i c r.validation.score
          (if r.failed then "failed" else "ok")) = false by
            simp [isProgressFor, hii]] at hpe
        exact absurd hpe (by simp)

/-- The invariant holds in every reachable state. -/
theorem batchInv_reach {outcome : Nat → ProcOutcome} {meta : Nat → ItemMeta} {n : Nat}
    {s : BatchState} (h : BatchReach outcome meta n s) : BatchInv outcome meta n s := by
  induction h with
  | refl => exact batchInv_init outcome meta n
  | tail _ hstep ih => exact batchInv_step ih hstep

/-- Any invariant state with unresolved tasks can step (no deadlock). -/
theorem batch_no_deadlock {outcome : Nat → ProcOutcome} {meta : Nat → ItemMeta} {n : Nat}
    {s : BatchState} (hinv : BatchInv outcome meta n s) (hnd : ¬ allDone n s) :
    ∃ s', BatchStep outcome meta n s s' := by
  rw [allDone] at hnd
  push_neg at hnd
  obtain ⟨i, hi, hnotdone⟩ := hnd
  cases hph : s.tasks i with
  | start =>
    rcases hq : s.quota_exhausted with _ | _
    · rcases Nat.eq_zero_or_pos s.sem with hz | hpos
      · exact ⟨_, .startWait s i hi hph hq hz⟩
      · exact ⟨_, .startRun s i hi hph hq hpos⟩
    · exact ⟨_, .startQuota s i hi hph hq⟩
  | waitingSem =>
    rcases Nat.eq_zero_or_pos s.sem with hz | hpos
    · -- the semaphore is exhausted, so some task is running and can step
      have hrun : ∃ j, j < n ∧ s.tasks j = .running := by
        by_contra hnone
        push_neg at hnone
        have hz' : runningCount n s = 0 := by
          rw [runningCount]
          apply Finset.sum_eq_zero
          intro j hj
          rw [if_neg (hnone j (Finset.mem_range.mp hj))]
        have := hinv.sem_bound
        rw [hz, hz'] at this
        exact absurd this (by decide)
      obtain ⟨j, hj, hphj⟩ := hrun
      cases houtj : outcome j with
      | ok rj => exact ⟨_, .finishOk s j rj hj hphj houtj⟩
      | quota => exact ⟨_, .finishQuota s j hj hphj houtj⟩
    · rcases hq : s.quota_exhausted with _ | _
      · exact ⟨_, .wakeRun s i hi hph hq hpos⟩
      · exact ⟨_, .wakeQuota s i hi hph hq hpos⟩
  | running =>
    cases hout : outcome i with
    | ok ri => exact ⟨_, .finishOk s i ri hi hph hout⟩
    | quota => exact ⟨_, .finishQuota s i hi hph hout⟩
  | notifying ri ci => exact ⟨_, .notify s i ri ci hi hph⟩
  | done ri => exact absurd hph (hnotdone ri)

/-- Every step strictly decreases the remaining-work measure, so every
execution of the batch terminates. -/
theorem batchStep_measure {outcome : Nat → ProcOutcome} {meta : Nat → ItemMeta} {n : Nat}
    {s s' : BatchState} (h : BatchStep outcome meta n s s') :
    batchMeasure n s' < batchMeasure n s := by
  cases h with
  | startQuota i hi hph hq =>
    have hms := batch_sum_update phaseRank s.tasks hi (.done (quotaFailedResult (meta i)))
    rw [hph] at hms
    rw [show phaseRank TaskPhase.start = 4 from rfl,
      show phaseRank (TaskPhase.done (quotaFailedResult (meta i))) = 0 from rfl] at hms
    simp only [batchMeasure]
    omega
  | startWait i hi hph hq hsem0 =>
    have hms := batch_sum_update phaseRank s.tasks hi .waitingSem
    rw [hph] at hms
    rw [show phaseRank TaskPhase.start = 4 from rfl,
      show phaseRank (TaskPhase.waitingSem) = 3 from rfl] at hms
    simp only [batchMeasure]
    omega
  | startRun i hi hph hq hsempos =>
    have hms := batch_sum_update phaseRank s.tasks hi .running
    rw [hph] at hms
    rw [show phaseRank TaskPhase.start = 4 from rfl,
      show phaseRank (TaskPhase.running) = 2 from rfl] at hms
    simp only [batchMeasure]
    omega
  | wakeQuota i hi hph hq hsempos =>
    have hms := batch_sum_update phaseRank s.tasks hi (.done (quotaFailedResult (meta i)))
    rw [hph] at hms
    rw [show phaseRank TaskPhase.waitingSem = 3 from rfl,
      show phaseRank (TaskPhase.done (quotaFailedResult (meta i))) = 0 from rfl] at hms
    simp only [batchMeasure]
    omega
  | wakeRun i hi hph hq hsempos =>
    have hms := batch_sum_update phaseRank s.tasks hi .running
    rw [hph] at hms
    rw [show phaseRank TaskPhase.waitingSem = 3 from rfl,
      show phaseRank (TaskPhase.running) = 2 from rfl] at hms
    simp only [batchMeasure]
    omega
  | finishOk i r hi hph hout =>
    have hms := batch_sum_update phaseRank s.tasks hi (.notifying r (s.completed + 1))
    rw [hph] at hms
    rw [show phaseRank TaskPhase.running = 2 from rfl,
      show phaseRank (TaskPhase.notifying r (s.completed + 1)) = 1 from rfl] at hms
    simp only [batchMeasure]
    omega
  | finishQuota i hi hph hout =>
    have hms := batch_sum_update phaseRank s.tasks hi (.done (quotaFailedResult (meta i)))
    rw [hph] at hms
    rw [show phaseRank TaskPhase.running = 2 from rfl,
      show phaseRank (TaskPhase.done (quotaFailedResult (meta i))) = 0 from rfl] at hms
    simp only [batchMeasure]
    omega
  | notify i r c hi hph =>
    have hms := batch_sum_update phaseRank s.tasks hi (.done r)
    rw [hph] at hms
    rw [show phaseRank (TaskPhase.notifying r c) = 1 from rfl,
      show phaseRank (TaskPhase.done r) = 0 from rfl] at hms
    simp only [batchMeasure]
    omega

/-- C4: in every reachable batch state — under any scheduling and any
generation-oracle behaviour — (1) once an item whose processing raised
quota exhaustion has resolved, the shared `quota_exhausted` flag is set;
(2) every item that never started generation (the oracle is consulted
exactly when `started` flips, so such items made no AI-service calls)
resolves as `_failed_result` with the distinguishing reason
"API quota exhausted"; (3) every in-flight item runs to completion with
its own `_process_product` result; and the batch always completes without
an unhandled exception: any state with unresolved items can step (the
quota error is caught, never propagated) and every step decreases a
termination measure, so all maximal executions end with every item
resolved. -/
theorem batch_quota_short_circuit (outcome : Nat → ProcOutcome) (meta : Nat → ItemMeta)
    (n : Nat) :
    (∀ s, BatchReach outcome meta n s →
      (∀ i, i < n → s.started i = true → outcome i = .quota →
        (∃ r, s.tasks i = .done r) → s.quota_exhausted = true) ∧
      (∀ i r, i < n → s.started i = false → s.tasks i = .done r →
        r = quotaFailedResult (meta i)) ∧
      (∀ i r r', i < n → s.started i = true → outcome i = .ok r →
        s.tasks i = .done r' → r' = r)) ∧
    (∀ s, BatchReach outcome meta n s → ¬ allDone n s →
      ∃ s', BatchStep outcome meta n s s') ∧
    (∀ s s', BatchStep outcome meta n s s' → batchMeasure n s' < batchMeasure n s) := by
  refine ⟨?_, ?_, ?_⟩
  · intro s hreach
    have hinv := batchInv_reach hreach
    refine ⟨?_, ?_, ?_⟩
    · rintro i hi hst hout ⟨r, hdone⟩
      rcases hinv.started_quota i hi hst hout with h | ⟨_, hfl⟩
      · rw [h] at hdone
        exact absurd hdone (by simp)
      · exact hfl
    · intro i r hi hst hdone
      rcases hinv.not_started i hi hst with h | h | h
      · rw [hdone] at h
        exact absurd h (by simp)
      · rw [hdone] at h
        exact absurd h (by simp)
      · rw [hdone] at h
        injection h with h
    · intro i r r' hi hst hout hdone
      rcases hinv.started_ok i r hi hst hout with h | ⟨c, h⟩ | h
      · rw [hdone] at h
        exact absurd h (by simp)
      · rw [hdone] at h
        exact absurd h (by simp)
      · rw [hdone] at h
        injection h with h
  · intro s hreach hnd
    exact batch_no_deadlock (batchInv_reach hreach) hnd
  · intro s s' hstep
    exact batchStep_measure hstep

/-- Witness for C4: with one item whose processing raises quota
exhaustion, the launched batch (where the item is still unresolved) can
step. -/
theorem batch_quota_short_circuit_witness :
    ∃ s', BatchStep (fun _ => ProcOutcome.quota) (fun _ => ⟨"p0", none, none⟩) 1
      (batchInit 1) s' := by
  have h := batch_quota_short_circuit (fun _ => ProcOutcome.quota)
    (fun _ => ⟨"p0", none, none⟩) 1
  refine h.2.1 (batchInit 1) Relation.ReflTransGen.refl ?_
  intro hall
  rcases hall 0 (by decide) with ⟨r, hr⟩
  exact absurd hr (by simp [batchInit])

/-- C7: in every reachable batch state, the event trace satisfies
write-before-notify for every item: a `progress` resolution event for item
`i` is only ever emitted after the `save` (durable per-item JSON write) for
item `i` already occurred. -/
theorem batch_write_before_notify (outcome : Nat → ProcOutcome) (meta : Nat → ItemMeta)
    (n : Nat) (s : BatchState) (hreach : BatchReach outcome meta n s) (i : Nat) :
    wbnAux i false s.trace :=
  (batchInv_reach hreach).wbn i

/-- Witness for C7 at the launched batch. -/
theorem batch_write_before_notify_witness :
    wbnAux 0 false (batchInit 3).trace :=
  batch_write_before_notify (fun _ => ProcOutcome.quota) (fun _ => ⟨"p0", none, none⟩) 3
    (batchInit 3) Relation.ReflTransGen.refl 0

/-- C10: `execute_batch` does not gate on recipe approval: the per-item
outcomes, the step relation, the reachable states, and hence the set of
producible batch reports are identical whatever the `approved` flag is
(the flag only feeds the "not approved, executing anyway" log warning,
which is not part of the observable results). -/
theorem execute_batch_ignores_approved (gen : String → Schema → Nat → ProcOutcome)
    (r : Recipe) (a : Bool) (meta : Nat → ItemMeta) (n : Nat) :
    itemOutcome gen (setApproved r a) = itemOutcome gen r ∧
    (∀ s s', BatchStep (itemOutcome gen (setApproved r a)) meta n s s' ↔
      BatchStep (itemOutcome gen r) meta n s s') ∧
    (∀ s, BatchReach (itemOutcome gen (setApproved r a)) meta n s ↔
      BatchReach (itemOutcome gen r) meta n s) ∧
    {p : BatchReport | ∃ s, BatchReach (itemOutcome gen (setApproved r a)) meta n s ∧
        allDone n s ∧ p = generate_batch_report (doneList n s)} =
      {p : BatchReport | ∃ s, BatchReach (itemOutcome gen r) meta n s ∧
        allDone n s ∧ p = generate_batch_report (doneList n s)} := by
  have hout : itemOutcome gen (setApproved r a) = itemOutcome gen r := rfl
  refine ⟨hout, ?_, ?_, ?_⟩
  · intro s s'
    rw [hout]
  · intro s
    rw [BatchReach, BatchReach, hout]
  · rw [hout]

end ListingAgent
